import Mathlib

/-!
Verification of the commit-history graph layout engine (TS fallback path)
and its log decoder, pagination controller and virtual-state injector.

The definitions below are a shallow embedding of:
  - `src/git/gitParsers.ts`  (`parseLogOutput`, `parseDecorate`)
  - `src/wasm/wasmBridge.ts` (`computeGraphLayoutTS`, `hashString`,
    `appendToLayout` fallback branch)
  - `src/graph/graphDataProvider.ts` (`loadInitialData`, `buildVirtualNodes`,
    `loadNextPage`)

JavaScript strings are modelled through their character lists; JS `Map`s are
modelled as association lists (the engine only inserts a key after checking
that it is absent, and the row map overwrites, which cons-to-front lookup
reproduces exactly).  The 32-bit wrapping arithmetic of `hashString` is made
explicit with `% 2 ^ 32`.
-/

/-- JS whitespace test used by `String.prototype.trim` (the code points that
matter for git output). -/
def isJsWhitespace (c : Char) : Bool :=
  c = ' ' ∨ c = '\t' ∨ c = '\n' ∨ c = '\r' ∨ c = '\x0b' ∨ c = '\x0c'

/-- Model of `String.prototype.trim`. -/
def jsTrim (s : String) : String :=
  ⟨((s.data.dropWhile isJsWhitespace).reverse.dropWhile isJsWhitespace).reverse⟩

/-- Leading-whitespace trim, used to model the anchored regex `^\s*\(`. -/
def jsTrimStart (s : String) : String :=
  ⟨s.data.dropWhile isJsWhitespace⟩

/-- Trailing-whitespace trim, used to model the anchored regex `\)\s*$`. -/
def jsTrimEnd (s : String) : String :=
  ⟨(s.data.reverse.dropWhile isJsWhitespace).reverse⟩

/-- Model of `String.prototype.startsWith`. -/
def jsStartsWith (s pre : String) : Bool :=
  pre.data.isPrefixOf s.data

/-- Model of `String.prototype.substring(n)` — drop the first `n` UTF-16 units. -/
def jsSubstringFrom (s : String) (n : Nat) : String :=
  ⟨s.data.drop n⟩

/-- Drop the final character (`.replace(/\)$/,'')` after the trailing trim). -/
def jsDropLast (s : String) : String :=
  ⟨s.data.dropLast⟩

/-- Model of `String.prototype.split` with a single-character separator. -/
def jsSplitChar (sep : Char) (s : String) : List String :=
  (s.data.splitOn sep).map List.asString

/-- JS `s.length` (UTF-16 length; code-point length for the data involved). -/
def jsLength (s : String) : Nat :=
  s.data.length

/-- Model of `parseInt(s, 10) || 0`: optional leading whitespace, optional sign,
longest digit run; no digits (`NaN`) collapses to `0`. -/
def jsParseIntOr0 (s : String) : Int :=
  let t := s.data.dropWhile isJsWhitespace
  let signAndDigits : Int × List Char :=
    match t with
    | '-' :: r => (-1, r)
    | '+' :: r => (1, r)
    | _ => (1, t)
  let ds := signAndDigits.2.takeWhile Char.isDigit
  if ds.isEmpty then 0
  else signAndDigits.1 * (ds.foldl (fun acc c => acc * 10 + (c.toNat - '0'.toNat)) 0 : Nat)

/-- Ref categories (`RefType` in `common/types.ts`). -/
inductive RefType where
  | Branch
  | RemoteBranch
  | Tag
  | Head
  | Stash
deriving DecidableEq, Inhabited, Repr

/-- Mirror of `RefInfo` in `common/types.ts`. -/
structure RefInfo where
  name : String
  refType : RefType
  isHead : Bool
deriving DecidableEq, Inhabited, Repr

/-- Mirror of `CommitNode` in `common/types.ts`. -/
structure CommitNode where
  sha : String
  shortSha : String
  parents : List String
  children : List String
  authorName : String
  authorEmail : String
  authorDate : Int
  committerName : String
  committerEmail : String
  commitDate : Int
  subject : String
  refs : List RefInfo
deriving DecidableEq, Inhabited, Repr

/-- Node categories (`NodeType` in `common/types.ts`). -/
inductive NodeType where
  | Normal
  | Head
  | Stash
  | WorkingTree
  | CommitIndex
deriving DecidableEq, Inhabited, Repr

/-- Edge categories (`'Normal' | 'Merge'` in `common/types.ts`; the spec
calls `Normal` edges "Direct"). -/
inductive EdgeType where
  | Normal
  | Merge
deriving DecidableEq, Inhabited, Repr

/-- Mirror of `LayoutNode` in `common/types.ts`. -/
structure LayoutNode where
  sha : String
  shortSha : String
  lane : Nat
  row : Nat
  colorIndex : Int
  subject : String
  authorName : String
  authorDate : Int
  refs : List RefInfo
  parents : List String
  nodeType : NodeType
deriving DecidableEq, Inhabited, Repr

/-- Mirror of `Edge` in `common/types.ts`; `toRow` is an `Int` because the engine uses
`-1` as the unresolved placeholder. -/
structure Edge where
  fromSha : String
  toSha : String
  fromLane : Nat
  toLane : Nat
  fromRow : Nat
  toRow : Int
  edgeType : EdgeType
  colorIndex : Int
deriving DecidableEq, Inhabited, Repr

/-- Mirror of `LayoutResult` in `common/types.ts`. -/
structure LayoutResult where
  nodes : List LayoutNode
  edges : List Edge
  totalCount : Nat
deriving DecidableEq, Inhabited, Repr

/-- Classify one decoration token after the `HEAD -> ` / bare-`HEAD`
special cases (`parseDecorate` loop body in `gitParsers.ts`). -/
def classifyRefToken (tok : String) (isHeadFlag : Bool) : RefInfo :=
  let afterTag : String × RefType :=
    if jsStartsWith tok "tag: " then (jsSubstringFrom tok 5, RefType.Tag)
    else (tok, RefType.Branch)
  let name := afterTag.1
  if jsStartsWith name "refs/heads/" then
    { name := jsSubstringFrom name 11, refType := RefType.Branch, isHead := isHeadFlag }
  else if jsStartsWith name "refs/remotes/" then
    { name := jsSubstringFrom name 13, refType := RefType.RemoteBranch, isHead := isHeadFlag }
  else if jsStartsWith name "refs/tags/" then
    { name := jsSubstringFrom name 10, refType := RefType.Tag, isHead := isHeadFlag }
  else if jsStartsWith name "refs/stash" then
    { name := name, refType := RefType.Stash, isHead := isHeadFlag }
  else
    { name := name, refType := afterTag.2, isHead := isHeadFlag }

/-- One comma-separated decoration token (`parseDecorate` loop body). -/
def parseRefPart (part : String) : List RefInfo :=
  if part = "" then []
  else if jsStartsWith part "HEAD -> " then
    { name := "HEAD", refType := RefType.Head, isHead := true }
      :: [classifyRefToken (jsSubstringFrom part 8) true]
  else if part = "HEAD" then
    [{ name := "HEAD", refType := RefType.Head, isHead := true }]
  else
    [classifyRefToken part false]

/-- Strip the `^\s*\(` wrapper. -/
def stripParenOpen (s : String) : String :=
  let t := jsTrimStart s
  if jsStartsWith t "(" then jsSubstringFrom t 1 else s

/-- Strip the `\)\s*$` wrapper. -/
def stripParenClose (s : String) : String :=
  let t := jsTrimEnd s
  if t.data.getLast? = some ')' then jsDropLast t else s

/-- Embedding of `parseDecorate` in `gitParsers.ts`. -/
def parseDecorate (decorateStr : String) : List RefInfo :=
  if decorateStr = "" then []
  else
    let trimmed := jsTrim (stripParenClose (stripParenOpen decorateStr))
    if trimmed = "" then []
    else ((jsSplitChar ',' trimmed).map jsTrim).flatMap parseRefPart

/-- Decode one record (the `parseLogOutput` loop body; `none` models
`continue` for records with fewer than 10 fields). -/
def parseRecord (record : String) : Option CommitNode :=
  let fields := jsSplitChar '\x00' record
  if fields.length < 10 then none
  else
    let parentStr := fields.getD 2 ""
    some
      { sha := jsTrim (fields.getD 0 "")
        shortSha := fields.getD 1 ""
        parents :=
          if parentStr = "" then []
          else (jsSplitChar ' ' parentStr).filter (fun p => 0 < jsLength p)
        children := []
        authorName := fields.getD 3 ""
        authorEmail := fields.getD 4 ""
        authorDate := jsParseIntOr0 (fields.getD 5 "")
        committerName := fields.getD 6 ""
        committerEmail := fields.getD 7 ""
        commitDate := jsParseIntOr0 (fields.getD 8 "")
        subject := fields.getD 9 ""
        refs := parseDecorate (if 10 < fields.length then fields.getD 10 "" else "") }

/-- Record split of `parseLogOutput`: split on the record separator and keep
records with non-blank content. -/
def splitRecords (raw : String) : List String :=
  (jsSplitChar '\x1e' raw).filter (fun r => 0 < jsLength (jsTrim r))

/-- Last-write-wins sha map of the children-link pass (`shaMap` in
`parseLogOutput`); cons-to-front with first-hit lookup models `Map.set`. -/
def buildShaIndexMap (nodes : List CommitNode) : List (String × Nat) :=
  nodes.enum.foldl (fun m p => (p.2.sha, p.1) :: m) []

/-- The `(parent index, child sha)` pushes performed by the children-link
pass, in execution order. -/
def childPushes (nodes : List CommitNode) : List (Nat × String) :=
  let shaMap := buildShaIndexMap nodes
  nodes.flatMap (fun c =>
    c.parents.filterMap (fun p => (shaMap.lookup p).map (fun j => (j, c.sha))))

/-- The children-link pass of `parseLogOutput` (mutation of each parent's
`children` array through the last-wins `shaMap`). -/
def buildChildren (nodes : List CommitNode) : List CommitNode :=
  let pushes := childPushes nodes
  nodes.enum.map (fun p =>
    { p.2 with
      children := pushes.filterMap (fun q => if q.1 = p.1 then some q.2 else none) })

/-- Embedding of `parseLogOutput` in `gitParsers.ts`. -/
def parseLogOutput (raw : String) : List CommitNode :=
  buildChildren ((splitRecords raw).filterMap parseRecord)

/-- Embedding of `hashString` in `wasmBridge.ts`: the `((hash << 5) - hash) + char` loop
with `|0` 32-bit truncation, then `Math.abs`.  `toInt32` is the JS `|0`
operator made explicit. -/
def toInt32 (x : Int) : Int :=
  (x + 2 ^ 31) % 2 ^ 32 - 2 ^ 31

/-- One loop iteration of `hashString`: `hash = ((hash << 5) - hash) + char`
followed by `hash |= 0` (the shift itself is a 32-bit operation in JS). -/
def hashStep (hash : Int) (c : Char) : Int :=
  toInt32 (toInt32 (hash * 32) - hash + c.toNat)

/-- Embedding of `hashString` in `wasmBridge.ts`; the final `Math.abs` makes the result
non-negative. -/
def hashString (s : String) : Int :=
  ((s.data.foldl hashStep 0).natAbs : Nat)

/-- The engine's lane table: `activeLanes` array plus the `shaToLane`
reservation map of `computeGraphLayoutTS` (inserted only when absent, so a
cons-to-front association list with first-hit lookup is exact). -/
structure LaneState where
  activeLanes : List (Option String)
  shaToLane : List (String × Nat)
deriving DecidableEq, Inhabited, Repr

/-- Model of `activeLanes.indexOf(null)` followed by the `push(null)` growth of
`computeGraphLayoutTS`: first empty slot, else extend by one. -/
def findEmptyLane (lanes : List (Option String)) : Nat × List (Option String) :=
  match lanes.findIdx? Option.isNone with
  | some l => (l, lanes)
  | none => (lanes.length, lanes ++ [none])

/-- Lane resolution for the current commit (`computeGraphLayoutTS` lines
21–36): a reserved lane wins, otherwise the first empty slot. -/
def resolveLane (st : LaneState) (sha : String) : Nat × List (Option String) :=
  match st.shaToLane.lookup sha with
  | some reservedLane => (reservedLane, st.activeLanes)
  | none => findEmptyLane st.activeLanes

/-- Model of `commit.refs.find(r => r.refType === 'Branch')` and the colour choice
(`hashString(name) % 12` versus `lane % 12`). -/
def colorIndexOf (refs : List RefInfo) (lane : Nat) : Int :=
  match refs.find? (fun r => r.refType == RefType.Branch) with
  | some branchRef => hashString branchRef.name % 12
  | none => (lane : Int) % 12

/-- The sequential node-type classification of `computeGraphLayoutTS`
(lines 46–48): start `Normal`, overwrite with `Head`, then overwrite with
`Stash`. -/
def nodeTypeOf (refs : List RefInfo) : NodeType :=
  let afterHead :=
    if refs.any (fun r => r.refType == RefType.Head) then NodeType.Head else NodeType.Normal
  if refs.any (fun r => r.refType == RefType.Stash) then NodeType.Stash else afterHead

/-- One iteration of the parent loop (`computeGraphLayoutTS` lines 65–100):
reserved parents keep their lane, a fresh first parent continues the
commit's lane, a fresh later parent gets the first empty lane; every parent
yields an edge with placeholder `toRow = -1`. -/
def processParent (st : LaneState) (commitSha : String) (lane row : Nat)
    (colorIndex : Int) (pIdx : Nat) (parentSha : String) : LaneState × Edge :=
  match st.shaToLane.lookup parentSha with
  | some existingParentLane =>
      (st,
        { fromSha := commitSha, toSha := parentSha, fromLane := lane,
          toLane := existingParentLane, fromRow := row, toRow := -1,
          edgeType := if 0 < pIdx then EdgeType.Merge else EdgeType.Normal,
          colorIndex := colorIndex })
  | none =>
      if pIdx = 0 then
        ({ activeLanes := st.activeLanes.set lane (some parentSha),
           shaToLane := (parentSha, lane) :: st.shaToLane },
          { fromSha := commitSha, toSha := parentSha, fromLane := lane,
            toLane := lane, fromRow := row, toRow := -1,
            edgeType := if 0 < pIdx then EdgeType.Merge else EdgeType.Normal,
            colorIndex := colorIndex })
      else
        let fl := findEmptyLane st.activeLanes
        ({ activeLanes := fl.2.set fl.1 (some parentSha),
           shaToLane := (parentSha, fl.1) :: st.shaToLane },
          { fromSha := commitSha, toSha := parentSha, fromLane := lane,
            toLane := fl.1, fromRow := row, toRow := -1,
            edgeType := if 0 < pIdx then EdgeType.Merge else EdgeType.Normal,
            colorIndex := colorIndex })

/-- The parent loop of `computeGraphLayoutTS`, indexed from `pIdx`. -/
def processParents (st : LaneState) (commitSha : String) (lane row : Nat)
    (colorIndex : Int) (pIdx : Nat) : List String → LaneState × List Edge
  | [] => (st, [])
  | p :: ps =>
      let r1 := processParent st commitSha lane row colorIndex pIdx p
      let r2 := processParents r1.1 commitSha lane row colorIndex (pIdx + 1) ps
      (r2.1, r1.2 :: r2.2)

/-- One full iteration of the main loop of `computeGraphLayoutTS`: resolve
the lane, provisionally empty it, build the node, process the parents, and
free the lane again when the commit has no parents. -/
def processCommit (st : LaneState) (row : Nat) (commit : CommitNode) :
    LaneState × LayoutNode × List Edge :=
  let rl := resolveLane st commit.sha
  let lane := rl.1
  let lanes1 := rl.2.set lane none
  let colorIndex := colorIndexOf commit.refs lane
  let node : LayoutNode :=
    { sha := commit.sha, shortSha := commit.shortSha, lane := lane, row := row,
      colorIndex := colorIndex, subject := commit.subject,
      authorName := commit.authorName, authorDate := commit.authorDate,
      refs := commit.refs, parents := commit.parents,
      nodeType := nodeTypeOf commit.refs }
  let pr := processParents { activeLanes := lanes1, shaToLane := st.shaToLane }
    commit.sha lane row colorIndex 0 commit.parents
  let lanes3 :=
    if commit.parents = [] then pr.1.activeLanes.set lane none else pr.1.activeLanes
  ({ activeLanes := lanes3, shaToLane := pr.1.shaToLane }, node, pr.2)

/-- The main loop of `computeGraphLayoutTS` over the decoded window,
threading the lane table and counting rows. -/
def layoutLoop (st : LaneState) (row : Nat) :
    List CommitNode → List LayoutNode × List Edge × LaneState
  | [] => ([], [], st)
  | c :: rest =>
      let r1 := processCommit st row c
      let r2 := layoutLoop r1.1 (row + 1) rest
      (r1.2.1 :: r2.1, r1.2.2 ++ r2.2.1, r2.2.2)

/-- The `shaToRow` map of the second pass, built with `Map.set` in node
order (cons-to-front with first-hit lookup gives the same last-write-wins
semantics). -/
def buildRowMapGo (acc : List (String × Nat)) (i : Nat) :
    List LayoutNode → List (String × Nat)
  | [] => acc
  | n :: ns => buildRowMapGo ((n.sha, i) :: acc) (i + 1) ns

/-- Model of `shaToRow` of `computeGraphLayoutTS`. -/
def buildRowMap (nodes : List LayoutNode) : List (String × Nat) :=
  buildRowMapGo [] 0 nodes

/-- Second-pass resolution of one edge: set `toRow` from the row map and
recolour `Normal` edges with the target node's colour. -/
def resolveEdge (rowMap : List (String × Nat)) (nodes : List LayoutNode)
    (e : Edge) : Edge :=
  match rowMap.lookup e.toSha with
  | some resolvedRow =>
      let e1 := { e with toRow := (resolvedRow : Int) }
      if e.edgeType = EdgeType.Normal then
        { e1 with colorIndex := ((nodes.getD resolvedRow default).colorIndex) }
      else e1
  | none => e

/-- The laid-out window for a decoded commit list: main loop, second-pass
row resolution, and the `toRow >= 0` retention filter of
`computeGraphLayoutTS`. -/
def layoutCommits (commits : List CommitNode) : LayoutResult :=
  let r := layoutLoop { activeLanes := [], shaToLane := [] } 0 commits
  let nodes := r.1
  let rowMap := buildRowMap nodes
  let resolved := (r.2.1).map (resolveEdge rowMap nodes)
  { nodes := nodes, edges := resolved.filter (fun e => 0 ≤ e.toRow),
    totalCount := commits.length }

/-- Embedding of `computeGraphLayoutTS` in `wasmBridge.ts`: decode the raw window, then
lay it out. -/
def computeGraphLayoutTS (raw : String) : LayoutResult :=
  layoutCommits (parseLogOutput raw)

/-- The fallback branch of `appendToLayout` in `wasmBridge.ts`: with no
accelerated module, an append simply recomputes a page-local layout. -/
def appendToLayoutTS (raw : String) : LayoutResult :=
  computeGraphLayoutTS raw

/-- The lane-table state of the engine after the first `i` commits of a
window (the state in which row `i` is processed). -/
def stateAt (commits : List CommitNode) (i : Nat) : LaneState :=
  (layoutLoop { activeLanes := [], shaToLane := [] } 0 (commits.take i)).2.2

/-- Mirror of `RepoStatus` in `common/types.ts`; `head` is the empty string when
`rev-parse HEAD` fails (`gitCommands.getRepoStatus`). -/
structure RepoStatus where
  hasRepo : Bool
  repoRoot : String
  head : String
  branch : String
  isDirty : Bool
  isMerging : Bool
  isRebasing : Bool
deriving DecidableEq, Inhabited, Repr

/-- Subject text of the staged-index virtual node
(`buildVirtualNodes` in `graphDataProvider.ts`). -/
def stagedSubject (stagedCount : Nat) : String :=
  if 0 < stagedCount then
    toString stagedCount ++ " staged change" ++ (if stagedCount = 1 then "" else "s")
  else "No staged changes"

/-- Subject text of the working-tree virtual node. -/
def workingSubject (workingCount : Nat) : String :=
  if 0 < workingCount then
    toString workingCount ++ " working directory change" ++
      (if workingCount = 1 then "" else "s")
  else "No working directory changes"

/-- Mirror of `WORKING_DIR_SHA` in `common/types.ts`. -/
def WORKING_DIR_SHA : String := "0000000000000000000000000000000000000001"

/-- Mirror of `COMMIT_INDEX_SHA` in `common/types.ts`. -/
def COMMIT_INDEX_SHA : String := "0000000000000000000000000000000000000002"

/-- Embedding of `buildVirtualNodes` in `graphDataProvider.ts`, made pure: the three
file lists are the results of the staged/unstaged/untracked queries, `now`
is `Math.floor(Date.now() / 1000)`, and `currentLayout` is the provider's
current (pre-shift) layout. -/
def buildVirtualNodes (headSha : String)
    (stagedFiles unstagedFiles untrackedFiles : List String) (now : Int)
    (currentLayout : Option LayoutResult) : List LayoutNode × List Edge :=
  let stagedCount := stagedFiles.length
  let workingCount := unstagedFiles.length + untrackedFiles.length
  let headLane : Nat :=
    match currentLayout with
    | some l =>
        match l.nodes.find? (fun n => n.sha == headSha) with
        | some headNode => headNode.lane
        | none => 0
    | none => 0
  let indexNode : LayoutNode :=
    { sha := COMMIT_INDEX_SHA, shortSha := "", lane := headLane, row := 0,
      colorIndex := 0, subject := stagedSubject stagedCount,
      authorName := "You", authorDate := now, refs := [],
      parents := [headSha], nodeType := NodeType.CommitIndex }
  let workingNode : LayoutNode :=
    { sha := WORKING_DIR_SHA, shortSha := "", lane := headLane, row := 1,
      colorIndex := 0, subject := workingSubject workingCount,
      authorName := "You", authorDate := now, refs := [],
      parents := [COMMIT_INDEX_SHA], nodeType := NodeType.WorkingTree }
  ([indexNode, workingNode],
    [ { fromSha := WORKING_DIR_SHA, toSha := COMMIT_INDEX_SHA,
        fromLane := headLane, toLane := headLane, fromRow := 1, toRow := 0,
        edgeType := EdgeType.Normal, colorIndex := 0 },
      { fromSha := COMMIT_INDEX_SHA, toSha := headSha,
        fromLane := headLane, toLane := headLane, fromRow := 0, toRow := 2,
        edgeType := EdgeType.Normal, colorIndex := 0 } ])

/-- Model of `edges.find(...)` followed by in-place mutation of the found edge
(the Index→HEAD fix-up in `loadInitialData`). -/
def updateFirstEdge (p : Edge → Bool) (f : Edge → Edge) : List Edge → List Edge
  | [] => []
  | e :: es => if p e then f e :: es else e :: updateFirstEdge p f es

/-- Embedding of `loadInitialData` in `graphDataProvider.ts`, made pure.  `status` is
`none` when `getRepoStatus` rejected (the `.catch` producing `null`);
`virtualFiles` is `none` when the file-list queries inside
`buildVirtualNodes` threw (the inner `try`/`catch`).  Injection happens
only when the status head is truthy and the virtual build succeeds;
otherwise the real layout is returned with only `totalCount` rewritten
(line 98 of the source runs on every path). -/
def loadInitialModel (rawLog : String) (totalCount : Nat)
    (status : Option RepoStatus)
    (virtualFiles : Option (List String × List String × List String))
    (now : Int) : LayoutResult :=
  let real := computeGraphLayoutTS rawLog
  match status, virtualFiles with
  | some st, some files =>
      if st.head = "" then { real with totalCount := totalCount }
      else
        let virt := buildVirtualNodes st.head files.1 files.2.1 files.2.2 now (some real)
        let shiftedNodes := real.nodes.map (fun n => { n with row := n.row + 2 })
        let shiftedEdges := real.edges.map (fun e =>
          { e with fromRow := e.fromRow + 2, toRow := e.toRow + 2 })
        let virtEdges :=
          match shiftedNodes.find? (fun n => n.sha == st.head) with
          | some headNode =>
              updateFirstEdge (fun e => e.toSha == st.head)
                (fun e => { e with toRow := (headNode.row : Int), toLane := headNode.lane })
                virt.2
          | none => virt.2
        { nodes := virt.1 ++ shiftedNodes, edges := virtEdges ++ shiftedEdges,
          totalCount := totalCount + 2 }
  | _, _ => { real with totalCount := totalCount }

/-- Embedding of `loadNextPage` in `graphDataProvider.ts` on the fallback path, made
pure: `none` is the `null` returned for a page request beyond
`totalCount`; otherwise the append result is concatenated onto the
accumulated layout. -/
def loadNextPageModel (currentLayout : Option LayoutResult)
    (totalCount loadedPages pageSize : Nat) (rawLog : String) :
    Option LayoutResult :=
  let skip := loadedPages * pageSize
  if totalCount ≤ skip then none
  else
    let appendResult := appendToLayoutTS rawLog
    match currentLayout with
    | some cur =>
        some { nodes := cur.nodes ++ appendResult.nodes,
               edges := cur.edges ++ appendResult.edges,
               totalCount := totalCount }
    | none => some { appendResult with totalCount := totalCount }

/-- Test fixture: a commit record with the given identity, parents and
refs. -/
def mkCommit (sha : String) (parents : List String) (refs : List RefInfo) :
    CommitNode :=
  { sha := sha, shortSha := sha, parents := parents, children := [],
    authorName := "au", authorEmail := "au@x", authorDate := 1,
    committerName := "co", committerEmail := "co@x", commitDate := 1,
    subject := "subj", refs := refs }

/-- Fixture for C1: commit `b` reserves a lane for `p` before the merge
commit `a` (parents `p`, `q`) is processed; valid reverse-topological
order. -/
def exC1 : List CommitNode :=
  [ mkCommit "b" ["p"] [], mkCommit "a" ["p", "q"] [],
    mkCommit "p" [] [], mkCommit "q" [] [] ]

/-- Fixture for the C1 witness: a merge at the head of the window. -/
def exC1w : List CommitNode :=
  [ mkCommit "a" ["p", "q"] [], mkCommit "p" [] [], mkCommit "q" [] [] ]

/-- Fixture for C2: a three-commit linear chain (spec scenario A). -/
def exC2 : List CommitNode :=
  [ mkCommit "c1" ["c2"] [], mkCommit "c2" ["c3"] [], mkCommit "c3" [] [] ]

/-- Fixture for C6: a commit carrying both a Head-category ref and a
Stash-category ref. -/
def exC6 : List CommitNode :=
  [ mkCommit "s" []
      [ { name := "HEAD", refType := RefType.Head, isHead := true },
        { name := "refs/stash", refType := RefType.Stash, isHead := false } ] ]

/-- Fixture for C7: records that violate the reverse-topological
precondition (`p` appears twice), leaving a stale reservation that makes
the live identities `q` and `r` share lane 0. -/
def exC7 : List CommitNode :=
  [ mkCommit "a" ["p"] [], mkCommit "p" ["q"] [], mkCommit "p" ["r"] [],
    mkCommit "m" ["q", "r"] [], mkCommit "q" [] [], mkCommit "r" [] [] ]

/-- A raw single-commit window (10 fields, no decoration). -/
def rawSingle : String :=
  "y\x00y\x00\x00au\x00au@x\x001\x00co\x00co@x\x001\x00subj"

/-- A linear history window: each commit's sole parent is the next record,
and the final commit is a root. -/
def isChain : List CommitNode → Bool
  | [] => true
  | [c] => c.parents = []
  | c :: d :: rest => c.parents = [d.sha] && isChain (d :: rest)

/-- The identities of the first `i` records of a window (the commits that
have already materialized when row `i` is processed). -/
def processedShas (cs : List CommitNode) (i : Nat) : List String :=
  (cs.take i).map (fun c => c.sha)

/-- The reverse-topological input precondition (callers must supply
parents strictly after children): no record lists a parent equal to the
identity of any record at the same or an earlier row. -/
def validTopo (cs : List CommitNode) : Bool :=
  cs.enum.all (fun p =>
    p.2.parents.all (fun q => (cs.take (p.1 + 1)).all (fun c => c.sha ≠ q)))

/-- Lane-table consistency: every occupied slot points back to its
reservation, and every live (reserved but not yet materialized) identity
still occupies its reserved slot. -/
def LaneInv (done : List String) (st : LaneState) : Prop :=
  (∀ l x, st.activeLanes.get? l = some (some x) → st.shaToLane.lookup x = some l) ∧
  (∀ x l, st.shaToLane.lookup x = some l → x ∉ done →
    st.activeLanes.get? l = some (some x))

theorem layoutLoop_nodes_length (cs : List CommitNode) :
    ∀ st row, ((layoutLoop st row cs).1).length = cs.length := by
  induction cs with
  | nil => intro st row; rfl
  | cons c rest ih =>
      intro st row
      simp only [layoutLoop, List.length_cons]
      rw [ih]

theorem processCommit_node (st : LaneState) (row : Nat) (commit : CommitNode) :
    (processCommit st row commit).2.1 =
      { sha := commit.sha, shortSha := commit.shortSha,
        lane := (resolveLane st commit.sha).1, row := row,
        colorIndex := colorIndexOf commit.refs (resolveLane st commit.sha).1,
        subject := commit.subject, authorName := commit.authorName,
        authorDate := commit.authorDate, refs := commit.refs,
        parents := commit.parents, nodeType := nodeTypeOf commit.refs } := rfl

theorem processCommit_edges (st : LaneState) (row : Nat) (commit : CommitNode) :
    (processCommit st row commit).2.2 =
      (processParents
        { activeLanes := (resolveLane st commit.sha).2.set (resolveLane st commit.sha).1 none,
          shaToLane := st.shaToLane }
        commit.sha (resolveLane st commit.sha).1 row
        (colorIndexOf commit.refs (resolveLane st commit.sha).1) 0 commit.parents).2 := rfl

theorem layoutLoop_nodes_get? (cs : List CommitNode) :
    ∀ st row i, ((layoutLoop st row cs).1).get? i =
      (cs.get? i).map (fun c =>
        (processCommit ((layoutLoop st row (cs.take i)).2.2) (row + i) c).2.1) := by
  induction cs with
  | nil => intro st row i; simp [layoutLoop]
  | cons c rest ih =>
      intro st row i
      match i with
      | 0 => simp [layoutLoop]
      | i + 1 =>
          simp only [layoutLoop, List.get?_cons_succ, List.take_succ_cons]
          rw [ih]
          have harow : row + (i + 1) = (row + 1) + i := by omega
          rw [harow]

theorem layoutLoop_nodes_map_row (cs : List CommitNode) :
    ∀ st row, ((layoutLoop st row cs).1).map (fun n => n.row) =
      List.range' row cs.length := by
  induction cs with
  | nil => intro st row; rfl
  | cons c rest ih =>
      intro st row
      simp only [layoutLoop, List.map_cons, List.length_cons, List.range'_succ]
      rw [ih, processCommit_node]

theorem layoutLoop_nodes_map_sha (cs : List CommitNode) :
    ∀ st row, ((layoutLoop st row cs).1).map (fun n => n.sha) =
      cs.map (fun c => c.sha) := by
  induction cs with
  | nil => intro st row; rfl
  | cons c rest ih =>
      intro st row
      simp only [layoutLoop, List.map_cons]
      rw [ih, processCommit_node]

theorem processParent_edge_fields (st : LaneState) (c : String) (lane row : Nat)
    (ci : Int) (pIdx : Nat) (p : String) :
    (processParent st c lane row ci pIdx p).2.toRow = -1 ∧
    (processParent st c lane row ci pIdx p).2.fromSha = c ∧
    (processParent st c lane row ci pIdx p).2.toSha = p ∧
    (processParent st c lane row ci pIdx p).2.fromRow = row ∧
    (processParent st c lane row ci pIdx p).2.fromLane = lane ∧
    (processParent st c lane row ci pIdx p).2.edgeType =
      (if 0 < pIdx then EdgeType.Merge else EdgeType.Normal) := by
  unfold processParent
  rcases h : st.shaToLane.lookup p with _ | l
  · by_cases hp : pIdx = 0 <;> simp [hp]
  · simp

theorem processParents_edge_fields (ps : List String) :
    ∀ st pIdx e, e ∈ (processParents st c lane row ci pIdx ps).2 →
      e.toRow = -1 ∧ e.fromSha = c ∧ e.fromRow = row ∧ e.fromLane = lane := by
  induction ps with
  | nil => intro st pIdx e he; simp [processParents] at he
  | cons p rest ih =>
      intro st pIdx e he
      simp only [processParents, List.mem_cons] at he
      rcases he with he | he
      · subst he
        have h := processParent_edge_fields st c lane row ci pIdx p
        exact ⟨h.1, h.2.1, h.2.2.2.1, h.2.2.2.2.1⟩
      · exact ih _ _ e he

theorem layoutLoop_edges_toRow (cs : List CommitNode) :
    ∀ st row e, e ∈ (layoutLoop st row cs).2.1 → e.toRow = -1 := by
  induction cs with
  | nil => intro st row e he; simp [layoutLoop] at he
  | cons c rest ih =>
      intro st row e he
      simp only [layoutLoop, List.mem_append] at he
      rcases he with he | he
      · rw [processCommit_edges] at he
        exact (processParents_edge_fields c.parents _ 0 e he).1
  
      · exact ih _ _ e he

theorem buildRowMapGo_lookup (ns : List LayoutNode) :
    ∀ acc i s r, (buildRowMapGo acc i ns).lookup s = some r →
      (∃ j, ∃ h : j < ns.length, i + j = r ∧ (ns.get ⟨j, h⟩).sha = s) ∨
        acc.lookup s = some r := by
  induction ns with
  | nil => intro acc i s r h; exact Or.inr h
  | cons n rest ih =>
      intro acc i s r h
      rcases ih _ _ _ _ h with ⟨j, hj, hij, hsha⟩ | hacc
      · exact Or.inl ⟨j + 1, by simpa using Nat.succ_lt_succ hj, by omega, hsha⟩
      · simp only [List.lookup] at hacc
        by_cases hs : s = n.sha
        · subst hs
          simp only [beq_self_eq_true] at hacc
          have hir : i = r := by simpa using hacc
          exact Or.inl ⟨0, by simp, by omega, by simp⟩
        · have hfalse : (s == n.sha) = false := by simpa using hs
          simp only [hfalse] at hacc
          exact Or.inr hacc

theorem layoutCommits_nodes_get? (cs : List CommitNode) (i : Nat) :
    (layoutCommits cs).nodes.get? i =
      (cs.get? i).map (fun c => (processCommit (stateAt cs i) i c).2.1) := by
  show ((layoutLoop { activeLanes := [], shaToLane := [] } 0 cs).1).get? i = _
  rw [layoutLoop_nodes_get? cs _ 0 i]
  simp [stateAt]

theorem layoutCommits_node_row (cs : List CommitNode) (j : Nat)
    (h : j < (layoutCommits cs).nodes.length) :
    ((layoutCommits cs).nodes.get ⟨j, h⟩).row = j := by
  have hlen : (layoutCommits cs).nodes.length = cs.length :=
    layoutLoop_nodes_length cs _ 0
  have hj : j < cs.length := hlen ▸ h
  have h1 := layoutCommits_nodes_get? cs j
  rw [List.get?_eq_get h, List.get?_eq_get hj] at h1
  simp only [Option.map_some'] at h1
  rw [Option.some.injEq] at h1
  rw [h1, processCommit_node]

theorem resolveEdge_toSha (rm : List (String × Nat)) (nodes : List LayoutNode)
    (e : Edge) : (resolveEdge rm nodes e).toSha = e.toSha := by
  unfold resolveEdge
  rcases h : rm.lookup e.toSha with _ | r
  · rfl
  · by_cases ht : e.edgeType = EdgeType.Normal <;> simp [ht]

theorem resolveEdge_toRow_none (rm : List (String × Nat)) (nodes : List LayoutNode)
    (e : Edge) (h : rm.lookup e.toSha = none) :
    (resolveEdge rm nodes e).toRow = e.toRow := by
  unfold resolveEdge
  rw [h]

theorem resolveEdge_toRow_some (rm : List (String × Nat)) (nodes : List LayoutNode)
    (e : Edge) (r : Nat) (h : rm.lookup e.toSha = some r) :
    (resolveEdge rm nodes e).toRow = (r : Int) := by
  unfold resolveEdge
  rw [h]
  by_cases ht : e.edgeType = EdgeType.Normal <;> simp [ht]

/-- C3 — for every input window, every retained edge's target row equals the
row of a materialized node carrying the edge's target identity, and every
retained edge has a non-negative resolved row (edges whose target never
materializes are filtered out of the result). -/
theorem C3_theorem (commits : List CommitNode) :
    (∀ e ∈ (layoutCommits commits).edges,
        ∃ n ∈ (layoutCommits commits).nodes, n.sha = e.toSha ∧ (n.row : Int) = e.toRow) ∧
    (∀ e ∈ (layoutCommits commits).edges, 0 ≤ e.toRow) := by
  constructor
  · intro e he
    have hsplit :
        (layoutCommits commits).edges =
          (((layoutLoop { activeLanes := [], shaToLane := [] } 0 commits).2.1).map
            (resolveEdge (buildRowMap ((layoutCommits commits).nodes)) ((layoutCommits commits).nodes))).filter
            (fun e => 0 ≤ e.toRow) := rfl
    rw [hsplit] at he
    have hmem := List.mem_filter.mp he
    rcases List.mem_map.mp hmem.1 with ⟨e0, he0, heq⟩
    have hpos : (0 : Int) ≤ e.toRow := by simpa using hmem.2
    have hraw : e0.toRow = -1 := layoutLoop_edges_toRow commits _ 0 e0 he0
    have htoSha : e.toSha = e0.toSha := by rw [← heq, resolveEdge_toSha]
    rcases hlk : (buildRowMap ((layoutCommits commits).nodes)).lookup e0.toSha with _ | r
    · have htoRow := resolveEdge_toRow_none (buildRowMap ((layoutCommits commits).nodes))
        ((layoutCommits commits).nodes) e0 hlk
      rw [heq] at htoRow
      rw [htoRow, hraw] at hpos
      omega
    · have htoRow := resolveEdge_toRow_some (buildRowMap ((layoutCommits commits).nodes))
        ((layoutCommits commits).nodes) e0 r hlk
      rw [heq] at htoRow
      rcases buildRowMapGo_lookup ((layoutCommits commits).nodes) [] 0 e0.toSha r hlk with
        ⟨j, hj, hjr, hsha⟩ | habs
      · refine ⟨(layoutCommits commits).nodes.get ⟨j, hj⟩, List.get_mem _ _ _, ?_, ?_⟩
        · rw [hsha, htoSha]
        · rw [layoutCommits_node_row commits j hj, htoRow]
          omega
      · simp [List.lookup] at habs
  · intro e he
    have hsplit :
        (layoutCommits commits).edges =
          (((layoutLoop { activeLanes := [], shaToLane := [] } 0 commits).2.1).map
            (resolveEdge (buildRowMap ((layoutCommits commits).nodes)) ((layoutCommits commits).nodes))).filter
            (fun e => 0 ≤ e.toRow) := rfl
    rw [hsplit] at he
    simpa using (List.mem_filter.mp he).2

theorem layoutCommits_nodes_length (cs : List CommitNode) :
    (layoutCommits cs).nodes.length = cs.length :=
  layoutLoop_nodes_length cs _ 0

theorem layoutCommits_node_eq (cs : List CommitNode) (i : Nat)
    (h : i < (layoutCommits cs).nodes.length) (hj : i < cs.length) :
    (layoutCommits cs).nodes.get ⟨i, h⟩ =
      (processCommit (stateAt cs i) i (cs.get ⟨i, hj⟩)).2.1 := by
  have h1 := layoutCommits_nodes_get? cs i
  rw [List.get?_eq_get h, List.get?_eq_get hj] at h1
  simp only [Option.map_some'] at h1
  exact Option.some.injEq _ _ ▸ h1

theorem colorIndexOf_bounds (refs : List RefInfo) (lane : Nat) :
    0 ≤ colorIndexOf refs lane ∧ colorIndexOf refs lane < 12 := by
  unfold colorIndexOf
  split
  · exact ⟨Int.emod_nonneg _ (by norm_num), Int.emod_lt_of_pos _ (by norm_num)⟩
  · exact ⟨Int.emod_nonneg _ (by norm_num), Int.emod_lt_of_pos _ (by norm_num)⟩

/-- C10 — `hashString` is never negative (32-bit wrapping arithmetic
followed by `Math.abs`), and every node's colour-class index, whether it
came from the branch-name hash or from the lane fallback, lies in
`[0, 12)`. -/
theorem C10_theorem (cs : List CommitNode) :
    (∀ s : String, 0 ≤ hashString s) ∧
    ∀ n ∈ (layoutCommits cs).nodes, 0 ≤ n.colorIndex ∧ n.colorIndex < 12 := by
  constructor
  · intro s
    unfold hashString
    exact Int.ofNat_nonneg _
  · intro n hn
    rcases List.mem_iff_get.mp hn with ⟨⟨i, h⟩, hget⟩
    have hj : i < cs.length := by
      have := layoutCommits_nodes_length cs
      omega
    rw [← hget, layoutCommits_node_eq cs i h hj, processCommit_node]
    exact colorIndexOf_bounds _ _

/-- C10 witness at a concrete window. -/
theorem C10_witness :
    0 ≤ ((layoutCommits exC2).nodes.getD 0 default).colorIndex ∧
    ((layoutCommits exC2).nodes.getD 0 default).colorIndex < 12 :=
  (C10_theorem exC2).2 _ (by decide)

/-- C6 — counterexample: a commit decorated with both a Head ref and a
Stash ref is categorized `Stash`, not `Head`, because the sequential
classification checks `Stash` last; the claim's Head-over-Stash precedence
fails on this input. -/
theorem C6_counterexample :
    ((exC6.getD 0 default).refs.any (fun r => r.refType == RefType.Head)) = true ∧
    ((exC6.getD 0 default).refs.any (fun r => r.refType == RefType.Stash)) = true ∧
    ((layoutCommits exC6).nodes.getD 0 default).nodeType = NodeType.Stash := by decide

/-- C6 (amended) — node categories are classified with precedence
Stash > Head > Normal: Stash wins whenever a Stash-category ref is
present, Head applies only when no Stash ref is present, and commits
carrying neither are Normal. -/
theorem C6_amended (cs : List CommitNode) (i : Nat)
    (h : i < (layoutCommits cs).nodes.length) :
    ((layoutCommits cs).nodes.get ⟨i, h⟩).nodeType =
      (if (cs.getD i default).refs.any (fun r => r.refType == RefType.Stash) then
        NodeType.Stash
      else if (cs.getD i default).refs.any (fun r => r.refType == RefType.Head) then
        NodeType.Head
      else NodeType.Normal) := by
  have hj : i < cs.length := by
    have := layoutCommits_nodes_length cs
    omega
  have hgd : cs.getD i default = cs.get ⟨i, hj⟩ := by
    rw [List.getD_eq_getElem?_getD, List.getElem?_eq_getElem hj]
    rfl
  rw [layoutCommits_node_eq cs i h hj, processCommit_node, hgd]
  unfold nodeTypeOf
  by_cases hs : ((cs.get ⟨i, hj⟩).refs.any (fun r => r.refType == RefType.Stash)) = true <;>
    by_cases hh : ((cs.get ⟨i, hj⟩).refs.any (fun r => r.refType == RefType.Head)) = true <;>
    simp [hs, hh]

/-- C6 witness: a commit decorated only with `(refs/stash)`-style Stash ref
is categorized Stash, and a Head-only commit is categorized Head. -/
theorem C6_witness :
    ((layoutCommits exC6).nodes.get ⟨0, by decide⟩).nodeType = NodeType.Stash := by
  rw [C6_amended exC6 0 (by decide)]
  decide

/-- C7 — counterexample: on input violating the reverse-topological
precondition (`p` occurs twice, leaving a stale reservation), the engine
performs no defensive recovery: the later live identity `r` is given the
same lane 0 that the live identity `q` already holds, so the merge commit
`m` emits two edges to distinct parents with the *same* target lane, and no
fresh lane is forced. -/
theorem C7_counterexample :
    ((layoutCommits exC7).edges.getD 3 default).fromSha = "m" ∧
    ((layoutCommits exC7).edges.getD 3 default).toSha = "q" ∧
    ((layoutCommits exC7).edges.getD 3 default).toLane = 0 ∧
    ((layoutCommits exC7).edges.getD 4 default).fromSha = "m" ∧
    ((layoutCommits exC7).edges.getD 4 default).toSha = "r" ∧
    ((layoutCommits exC7).edges.getD 4 default).toLane = 0 ∧
    ((layoutCommits exC7).edges.getD 4 default).edgeType = EdgeType.Merge ∧
    ((layoutCommits exC7).nodes.getD 4 default).lane =
      ((layoutCommits exC7).nodes.getD 5 default).lane := by decide

/-- C7 (amended) — the engine is total on precondition-violating input and
never crashes: it always produces one node per input record, in order, with
sequential rows; but it performs no lane-collision detection, recovery or
diagnostic (see the counterexample, where two live identities share a
lane). -/
theorem C7_amended (cs : List CommitNode) :
    ((layoutCommits cs).nodes.map (fun n => n.sha) = cs.map (fun c => c.sha)) ∧
    ((layoutCommits cs).nodes.map (fun n => n.row) = List.range cs.length) := by
  constructor
  · exact layoutLoop_nodes_map_sha cs _ 0
  · rw [List.range_eq_range']
    exact layoutLoop_nodes_map_row cs _ 0

theorem buildChildren_map_sha (ns : List CommitNode) :
    (buildChildren ns).map (fun c => c.sha) = ns.map (fun c => c.sha) := by
  unfold buildChildren
  rw [List.map_map]
  have h2 : ns.enum.map (fun p : Nat × CommitNode => p.2.sha) =
      ns.map (fun c => c.sha) := by
    rw [show (fun p : Nat × CommitNode => p.2.sha) =
        ((fun c : CommitNode => c.sha) ∘ Prod.snd) from rfl]
    rw [← List.map_map, List.enum_map_snd]
  exact h2

theorem parseRecord_none (r : String) (h : (jsSplitChar '\x00' r).length < 10) :
    parseRecord r = none := by
  unfold parseRecord
  rw [if_pos h]

theorem parseRecord_sha (r : String) (h : ¬ (jsSplitChar '\x00' r).length < 10) :
    ∃ c, parseRecord r = some c ∧ c.sha = jsTrim ((jsSplitChar '\x00' r).getD 0 "") := by
  unfold parseRecord
  rw [if_neg h]
  exact ⟨_, rfl, rfl⟩

theorem filterMap_parseRecord_map_sha (l : List String) :
    (l.filterMap parseRecord).map (fun c => c.sha) =
      (l.filter (fun r => 10 ≤ (jsSplitChar '\x00' r).length)).map
        (fun r => jsTrim ((jsSplitChar '\x00' r).getD 0 "")) := by
  induction l with
  | nil => rfl
  | cons r rest ih =>
      rcases Nat.lt_or_ge (jsSplitChar '\x00' r).length 10 with h | h
      · have hnone := parseRecord_none r h
        have hcond : ¬ (10 ≤ (jsSplitChar '\x00' r).length) := by omega
        simp only [List.filterMap_cons, hnone, List.filter_cons]
        rw [if_neg (by simpa using hcond)]
        exact ih
      · obtain ⟨c, hc, hsha⟩ := parseRecord_sha r (by omega)
        simp only [List.filterMap_cons, hc, List.filter_cons]
        rw [if_pos (by simpa using h)]
        simp only [List.map_cons, hsha, ih]

/-- C9 — `parseLogOutput` is total and lenient: exactly the records with at
least 10 fields contribute commits, in input order (a malformed record is
skipped and decoding continues; nothing is fatal). -/
theorem C9_theorem (raw : String) :
    (parseLogOutput raw).map (fun c => c.sha) =
      ((splitRecords raw).filter (fun r => 10 ≤ (jsSplitChar '\x00' r).length)).map
        (fun r => jsTrim ((jsSplitChar '\x00' r).getD 0 "")) := by
  unfold parseLogOutput
  rw [buildChildren_map_sha, filterMap_parseRecord_map_sha]

theorem isPrefixOf_nil_left (l : List Char) :
    ([] : List Char).isPrefixOf l = true := by
  cases l <;> rfl

theorem isPrefixOf_append_self (l r : List Char) : l.isPrefixOf (l ++ r) = true := by
  induction l with
  | nil => exact isPrefixOf_nil_left r
  | cons a as ih => simp [List.isPrefixOf, ih]

theorem jsStartsWith_append_self (pre rest : String) :
    jsStartsWith (pre ++ rest) pre = true := by
  unfold jsStartsWith
  rw [String.data_append]
  exact isPrefixOf_append_self _ _

/-- C8 — counterexample: the decoder does *not* strip the `refs/stash`
prefix; the token `refs/stash` is categorized Stash but its name keeps the
full prefix (a stripped name could not itself start with `refs/stash`). -/
theorem C8_counterexample :
    parseDecorate "(refs/stash)" =
      [{ name := "refs/stash", refType := RefType.Stash, isHead := false }] := by
  decide

/-- C8 (amended) — `refs/heads/`, `refs/remotes/` and `refs/tags/` are
stripped and set categories Branch, RemoteBranch and Tag; `refs/stash` sets
category Stash but the name is kept *unstripped*; a token with none of the
recognized forms keeps its name with Branch category. -/
theorem C8_amended (rest : String) (s : String)
    (h1 : jsStartsWith s "refs/heads/" = false)
    (h2 : jsStartsWith s "refs/remotes/" = false)
    (h3 : jsStartsWith s "refs/tags/" = false)
    (h4 : jsStartsWith s "refs/stash" = false)
    (h5 : jsStartsWith s "HEAD -> " = false)
    (h6 : ¬ s = "HEAD") (h7 : ¬ s = "")
    (h8 : jsStartsWith s "tag: " = false) :
    parseRefPart ("refs/heads/" ++ rest) =
      [{ name := rest, refType := RefType.Branch, isHead := false }] ∧
    parseRefPart ("refs/remotes/" ++ rest) =
      [{ name := rest, refType := RefType.RemoteBranch, isHead := false }] ∧
    parseRefPart ("refs/tags/" ++ rest) =
      [{ name := rest, refType := RefType.Tag, isHead := false }] ∧
    parseRefPart ("refs/stash" ++ rest) =
      [{ name := "refs/stash" ++ rest, refType := RefType.Stash, isHead := false }] ∧
    parseRefPart s = [{ name := s, refType := RefType.Branch, isHead := false }] := by
  refine ⟨?_, ?_, ?_, ?_, ?_⟩
  · show [classifyRefToken ("refs/heads/" ++ rest) false] = _
    unfold classifyRefToken
    simp [show jsStartsWith ("refs/heads/" ++ rest) "tag: " = false from rfl,
      jsStartsWith_append_self,
      show jsSubstringFrom ("refs/heads/" ++ rest) 11 = rest from rfl]
  · show [classifyRefToken ("refs/remotes/" ++ rest) false] = _
    unfold classifyRefToken
    simp [show jsStartsWith ("refs/remotes/" ++ rest) "tag: " = false from rfl,
      show jsStartsWith ("refs/remotes/" ++ rest) "refs/heads/" = false from rfl,
      jsStartsWith_append_self,
      show jsSubstringFrom ("refs/remotes/" ++ rest) 13 = rest from rfl]
  · show [classifyRefToken ("refs/tags/" ++ rest) false] = _
    unfold classifyRefToken
    simp [show jsStartsWith ("refs/tags/" ++ rest) "tag: " = false from rfl,
      show jsStartsWith ("refs/tags/" ++ rest) "refs/heads/" = false from rfl,
      show jsStartsWith ("refs/tags/" ++ rest) "refs/remotes/" = false from rfl,
      jsStartsWith_append_self,
      show jsSubstringFrom ("refs/tags/" ++ rest) 10 = rest from rfl]
  · show [classifyRefToken ("refs/stash" ++ rest) false] = _
    unfold classifyRefToken
    simp [show jsStartsWith ("refs/stash" ++ rest) "tag: " = false from rfl,
      show jsStartsWith ("refs/stash" ++ rest) "refs/heads/" = false from rfl,
      show jsStartsWith ("refs/stash" ++ rest) "refs/remotes/" = false from rfl,
      show jsStartsWith ("refs/stash" ++ rest) "refs/tags/" = false from rfl,
      jsStartsWith_append_self]
  · unfold parseRefPart
    simp only [h5, h6, h7, if_neg, Bool.false_eq_true, if_false]
    unfold classifyRefToken
    simp [h1, h2, h3, h4, h8]

/-- C8 witness: a plain branch token and a stripped `refs/heads/` token. -/
theorem C8_witness :
    parseRefPart "refs/heads/main" =
      [{ name := "main", refType := RefType.Branch, isHead := false }] ∧
    parseRefPart "feature" =
      [{ name := "feature", refType := RefType.Branch, isHead := false }] :=
  ⟨(C8_amended "main" "feature" rfl rfl rfl rfl rfl (by decide) (by decide) rfl).1,
   (C8_amended "main" "feature" rfl rfl rfl rfl rfl (by decide) (by decide) rfl).2.2.2.2⟩

/-- C5 — counterexample: with one page (one node, row 0) already
materialized, a fallback append of a one-commit window produces a node
whose row is 0, not 1: the TS fallback recomputes a page-local layout, so
rows restart at 0 instead of continuing the session's row sequence. -/
theorem C5_counterexample :
    (loadNextPageModel (some (layoutCommits [mkCommit "h" [] []])) 2 1 1 rawSingle).isSome
      = true ∧
    (layoutCommits [mkCommit "h" [] []]).nodes.length = 1 ∧
    (((loadNextPageModel (some (layoutCommits [mkCommit "h" [] []])) 2 1 1
        rawSingle).getD default).nodes.getD 1 default).row = 0 := by decide

/-- C5 (amended) — on the fallback path an append concatenates a freshly
recomputed, page-local layout onto the accumulated one: the i-th node
produced by the append has row `i`, so rows restart at 0 after the first
window instead of continuing the existing row sequence. -/
theorem C5_amended (currentLayout : LayoutResult)
    (totalCount loadedPages pageSize : Nat) (rawLog : String) (r : LayoutResult)
    (h : loadNextPageModel (some currentLayout) totalCount loadedPages pageSize rawLog
      = some r) :
    r.nodes = currentLayout.nodes ++ (appendToLayoutTS rawLog).nodes ∧
    (appendToLayoutTS rawLog).nodes.map (fun n => n.row) =
      List.range (parseLogOutput rawLog).length := by
  unfold loadNextPageModel at h
  by_cases hskip : totalCount ≤ loadedPages * pageSize
  · rw [if_pos hskip] at h
    exact absurd h (by simp)
  · rw [if_neg hskip] at h
    simp only [Option.some.injEq] at h
    constructor
    · rw [← h]
    · rw [List.range_eq_range']
      exact layoutLoop_nodes_map_row (parseLogOutput rawLog) _ 0

/-- C5 witness at a concrete append. -/
theorem C5_witness :
    ((loadNextPageModel (some (layoutCommits [mkCommit "h" [] []])) 2 1 1
        rawSingle).getD default).nodes =
      (layoutCommits [mkCommit "h" [] []]).nodes ++ (appendToLayoutTS rawSingle).nodes :=
  (C5_amended (layoutCommits [mkCommit "h" [] []]) 2 1 1 rawSingle
    ((loadNextPageModel (some (layoutCommits [mkCommit "h" [] []])) 2 1 1
      rawSingle).getD default) (by decide)).1

theorem updateFirstEdge_length (p : Edge → Bool) (f : Edge → Edge) (l : List Edge) :
    (updateFirstEdge p f l).length = l.length := by
  induction l with
  | nil => rfl
  | cons e es ih =>
      unfold updateFirstEdge
      by_cases hp : p e <;> simp [hp, ih]

/-- C4 — on an initial build with a resolvable HEAD and a successful
virtual build, every real node row and every real edge's row fields are
shifted by exactly +2 and the reported total grows by exactly 2 (the two
synthetic nodes are prepended); if repository status is unavailable or HEAD
is not resolvable or the virtual build fails, the real layout is returned
with no shift and no synthetic nodes and the total unchanged; page appends
never inject or shift anything. -/
theorem C4_theorem (rawLog : String) (totalCount : Nat)
    (status : Option RepoStatus)
    (virtualFiles : Option (List String × List String × List String)) (now : Int) :
    (∀ st files, status = some st → ¬ st.head = "" → virtualFiles = some files →
      (loadInitialModel rawLog totalCount status virtualFiles now).totalCount
          = totalCount + 2 ∧
      (loadInitialModel rawLog totalCount status virtualFiles now).nodes.drop 2 =
        (computeGraphLayoutTS rawLog).nodes.map (fun n => { n with row := n.row + 2 }) ∧
      (loadInitialModel rawLog totalCount status virtualFiles now).edges.drop 2 =
        (computeGraphLayoutTS rawLog).edges.map (fun e =>
          { e with fromRow := e.fromRow + 2, toRow := e.toRow + 2 }) ∧
      (loadInitialModel rawLog totalCount status virtualFiles now).nodes.length =
        (computeGraphLayoutTS rawLog).nodes.length + 2) ∧
    ((status = none ∨ (∃ st, status = some st ∧ st.head = "") ∨ virtualFiles = none) →
      (loadInitialModel rawLog totalCount status virtualFiles now).nodes =
        (computeGraphLayoutTS rawLog).nodes ∧
      (loadInitialModel rawLog totalCount status virtualFiles now).edges =
        (computeGraphLayoutTS rawLog).edges ∧
      (loadInitialModel rawLog totalCount status virtualFiles now).totalCount
        = totalCount) ∧
    (∀ cur tc lp ps raw2 r,
      loadNextPageModel (some cur) tc lp ps raw2 = some r →
      r.nodes = cur.nodes ++ (appendToLayoutTS raw2).nodes ∧
      r.edges = cur.edges ++ (appendToLayoutTS raw2).edges ∧
      r.totalCount = tc) := by
  refine ⟨?_, ?_, ?_⟩
  · intro st files hst hhead hfiles
    subst hst
    subst hfiles
    simp only [loadInitialModel]
    rw [if_neg hhead]
    refine ⟨rfl, ?_, ?_, ?_⟩
    · show (((buildVirtualNodes st.head files.1 files.2.1 files.2.2 now
          (some (computeGraphLayoutTS rawLog))).1) ++ _).drop 2 = _
      rfl
    · show (_ ++ ((computeGraphLayoutTS rawLog).edges.map (fun e =>
          { e with fromRow := e.fromRow + 2, toRow := e.toRow + 2 }))).drop 2 = _
      rcases hfind : ((computeGraphLayoutTS rawLog).nodes.map
          (fun n => { n with row := n.row + 2 })).find? (fun n => n.sha == st.head) with
        _ | headNode
      · rw [hfind]
        rfl
      · rw [hfind]
        have hlen : (updateFirstEdge (fun e => e.toSha == st.head)
            (fun e => { e with toRow := (headNode.row : Int), toLane := headNode.lane })
            ((buildVirtualNodes st.head files.1 files.2.1 files.2.2 now
              (some (computeGraphLayoutTS rawLog))).2)).length = 2 := by
          rw [updateFirstEdge_length]
          rfl
        rw [← hlen, List.drop_left]
    · show ((buildVirtualNodes st.head files.1 files.2.1 files.2.2 now
          (some (computeGraphLayoutTS rawLog))).1 ++
            (computeGraphLayoutTS rawLog).nodes.map
              (fun n : LayoutNode => { n with row := n.row + 2 })).length = _
      simp [buildVirtualNodes]
  · intro hfail
    rcases hfail with hst | ⟨st, hst, hhead⟩ | hvf
    · subst hst
      exact ⟨rfl, rfl, rfl⟩
    · subst hst
      rcases virtualFiles with _ | files
      · exact ⟨rfl, rfl, rfl⟩
      · simp only [loadInitialModel]
        rw [if_pos hhead]
        exact ⟨rfl, rfl, rfl⟩
    · subst hvf
      rcases status with _ | st
      · exact ⟨rfl, rfl, rfl⟩
      · exact ⟨rfl, rfl, rfl⟩
  · intro cur tc lp ps raw2 r h
    unfold loadNextPageModel at h
    by_cases hskip : tc ≤ lp * ps
    · rw [if_pos hskip] at h
      exact absurd h (by simp)
    · rw [if_neg hskip] at h
      simp only [Option.some.injEq] at h
      rw [← h]
      exact ⟨rfl, rfl, rfl⟩

/-- C4 witness at a concrete successful initial build. -/
theorem C4_witness :
    (loadInitialModel rawSingle 5
      (some { hasRepo := true, repoRoot := "", head := "y", branch := "main",
              isDirty := false, isMerging := false, isRebasing := false })
      (some ([], [], [])) 0).totalCount = 5 + 2 :=
  ((C4_theorem rawSingle 5
      (some { hasRepo := true, repoRoot := "", head := "y", branch := "main",
              isDirty := false, isMerging := false, isRebasing := false })
      (some ([], [], [])) 0).1
    { hasRepo := true, repoRoot := "", head := "y", branch := "main",
      isDirty := false, isMerging := false, isRebasing := false }
    ([], [], []) rfl (by decide) rfl).1

theorem resolveEdge_edgeType (rm : List (String × Nat)) (nodes : List LayoutNode)
    (e : Edge) : (resolveEdge rm nodes e).edgeType = e.edgeType := by
  unfold resolveEdge
  rcases h : rm.lookup e.toSha with _ | r
  · rfl
  · by_cases ht : e.edgeType = EdgeType.Normal <;> simp [ht]

theorem buildRowMapGo_lookup_acc (ns : List LayoutNode) :
    ∀ acc i s, ((acc : List (String × Nat)).lookup s).isSome = true →
      ((buildRowMapGo acc i ns).lookup s).isSome = true := by
  induction ns with
  | nil => intro acc i s h; exact h
  | cons n rest ih =>
      intro acc i s h
      refine ih _ _ _ ?_
      simp only [List.lookup]
      by_cases hs : s = n.sha
      · subst hs
        simp
      · have hfalse : (s == n.sha) = false := by simpa using hs
        simp only [hfalse]
        exact h

theorem buildRowMapGo_lookup_isSome (ns : List LayoutNode) :
    ∀ acc i s, s ∈ ns.map (fun n => n.sha) →
      ((buildRowMapGo acc i ns).lookup s).isSome = true := by
  induction ns with
  | nil => intro acc i s h; simp at h
  | cons n rest ih =>
      intro acc i s h
      rcases List.mem_cons.mp h with hs | hs
      · subst hs
        refine buildRowMapGo_lookup_acc rest _ _ _ ?_
        simp [List.lookup]
      · exact ih _ _ _ hs

theorem processCommit_first_single (c : CommitNode) (hpar : c.parents = []) :
    processCommit { activeLanes := [], shaToLane := [] } 0 c =
      ({ activeLanes := [none], shaToLane := [] },
       { sha := c.sha, shortSha := c.shortSha, lane := 0, row := 0,
         colorIndex := colorIndexOf c.refs 0, subject := c.subject,
         authorName := c.authorName, authorDate := c.authorDate,
         refs := c.refs, parents := c.parents, nodeType := nodeTypeOf c.refs },
       []) := by
  unfold processCommit resolveLane findEmptyLane
  simp [hpar, processParents]

theorem processCommit_first_chain (c : CommitNode) (d : String)
    (hd : c.parents = [d]) :
    processCommit { activeLanes := [], shaToLane := [] } 0 c =
      ({ activeLanes := [some d], shaToLane := [(d, 0)] },
       { sha := c.sha, shortSha := c.shortSha, lane := 0, row := 0,
         colorIndex := colorIndexOf c.refs 0, subject := c.subject,
         authorName := c.authorName, authorDate := c.authorDate,
         refs := c.refs, parents := c.parents, nodeType := nodeTypeOf c.refs },
       [{ fromSha := c.sha, toSha := d, fromLane := 0, toLane := 0, fromRow := 0,
          toRow := -1, edgeType := EdgeType.Normal, colorIndex := colorIndexOf c.refs 0 }]) := by
  unfold processCommit resolveLane findEmptyLane
  simp [hd, processParents, processParent, List.lookup]

theorem processCommit_chain_step (m : List (String × Nat)) (row : Nat)
    (c : CommitNode) (d : String) (hres : m.lookup c.sha = some 0)
    (hd : c.parents = [d]) (hfresh : m.lookup d = none) :
    processCommit { activeLanes := [some c.sha], shaToLane := m } row c =
      ({ activeLanes := [some d], shaToLane := (d, 0) :: m },
       { sha := c.sha, shortSha := c.shortSha, lane := 0, row := row,
         colorIndex := colorIndexOf c.refs 0, subject := c.subject,
         authorName := c.authorName, authorDate := c.authorDate,
         refs := c.refs, parents := c.parents, nodeType := nodeTypeOf c.refs },
       [{ fromSha := c.sha, toSha := d, fromLane := 0, toLane := 0, fromRow := row,
          toRow := -1, edgeType := EdgeType.Normal, colorIndex := colorIndexOf c.refs 0 }]) := by
  unfold processCommit resolveLane
  simp [hres, hd, processParents, processParent, hfresh]

theorem processCommit_chain_last (m : List (String × Nat)) (row : Nat)
    (c : CommitNode) (hres : m.lookup c.sha = some 0) (hpar : c.parents = []) :
    processCommit { activeLanes := [some c.sha], shaToLane := m } row c =
      ({ activeLanes := [none], shaToLane := m },
       { sha := c.sha, shortSha := c.shortSha, lane := 0, row := row,
         colorIndex := colorIndexOf c.refs 0, subject := c.subject,
         authorName := c.authorName, authorDate := c.authorDate,
         refs := c.refs, parents := c.parents, nodeType := nodeTypeOf c.refs },
       []) := by
  unfold processCommit resolveLane
  simp [hres, hpar, processParents]

theorem layoutLoop_cons (st : LaneState) (row : Nat) (c : CommitNode)
    (rest : List CommitNode) :
    layoutLoop st row (c :: rest) =
      ((processCommit st row c).2.1 ::
          (layoutLoop (processCommit st row c).1 (row + 1) rest).1,
        (processCommit st row c).2.2 ++
          (layoutLoop (processCommit st row c).1 (row + 1) rest).2.1,
        (layoutLoop (processCommit st row c).1 (row + 1) rest).2.2) := rfl

theorem chain_loop (cs : List CommitNode) :
    ∀ (c : CommitNode) (m : List (String × Nat)) (row : Nat),
      isChain (c :: cs) = true →
      m.lookup c.sha = some 0 →
      (∀ d ∈ cs, m.lookup d.sha = none) →
      (((c :: cs).map (fun x => x.sha)).Nodup) →
      (((layoutLoop { activeLanes := [some c.sha], shaToLane := m } row (c :: cs)).1).map
          (fun n => n.lane) = List.replicate (c :: cs).length 0) ∧
      (((layoutLoop { activeLanes := [some c.sha], shaToLane := m } row (c :: cs)).2.1).map
          (fun e => (e.edgeType, e.toSha)) = cs.map (fun d => (EdgeType.Normal, d.sha))) := by
  induction cs with
  | nil =>
      intro c m row hchain hres hfresh hnodup
      have hpar : c.parents = [] := by simpa [isChain] using hchain
      simp [layoutLoop, processCommit_chain_last m row c hres hpar]
  | cons d rest ih =>
      intro c m row hchain hres hfresh hnodup
      have hchain' : c.parents = [d.sha] ∧ isChain (d :: rest) = true := by
        simpa [isChain] using hchain
      have hfreshd : m.lookup d.sha = none := hfresh d (List.mem_cons_self d rest)
      have hstep := processCommit_chain_step m row c d.sha hres hchain'.1 hfreshd
      have hres' : ((d.sha, 0) :: m).lookup d.sha = some 0 := by simp [List.lookup]
      have hfresh' : ∀ e ∈ rest, ((d.sha, 0) :: m).lookup e.sha = none := by
        intro e he
        have hne : e.sha ≠ d.sha := by
          have hnd : (d.sha :: rest.map (fun x => x.sha)).Nodup := by
            have := List.Nodup.of_cons hnodup
            simpa using this
          have hd_notin : d.sha ∉ rest.map (fun x => x.sha) := (List.nodup_cons.mp hnd).1
          intro hcontra
          exact hd_notin (hcontra ▸ List.mem_map_of_mem (fun x => x.sha) he)
        have hfe : (e.sha == d.sha) = false := by simpa using hne
        simp only [List.lookup, hfe]
        exact hfresh e (List.mem_cons_of_mem d he)
      have hnodup' : ((d :: rest).map (fun x => x.sha)).Nodup := by
        have := List.Nodup.of_cons hnodup
        simpa using this
      have hrec := ih d ((d.sha, 0) :: m) (row + 1) hchain'.2 hres' hfresh' hnodup'
      constructor
      · rw [layoutLoop_cons, hstep]
        simp only [List.map_cons]
        rw [hrec.1]
        rfl
      · rw [layoutLoop_cons, hstep]
        simp only [List.map_append, List.map_cons]
        rw [hrec.2]
        rfl

/-- C2 — for a linear chain supplied in reverse-topological order (each
commit's sole parent is the next record, distinct identities), node `i`
gets row `i` and lane 0, and the result has `N - 1` retained edges, all
Direct (non-Merge). -/
theorem C2_theorem (cs : List CommitNode) (hchain : isChain cs = true)
    (hnodup : (cs.map (fun c => c.sha)).Nodup) :
    ((layoutCommits cs).nodes.map (fun n => n.row) = List.range cs.length) ∧
    ((layoutCommits cs).nodes.map (fun n => n.lane) = List.replicate cs.length 0) ∧
    ((layoutCommits cs).edges.length = cs.length - 1) ∧
    (∀ e ∈ (layoutCommits cs).edges, e.edgeType = EdgeType.Normal) := by
  have key :
      (((layoutLoop { activeLanes := [], shaToLane := [] } 0 cs).1).map (fun n => n.lane)
          = List.replicate cs.length 0) ∧
      (((layoutLoop { activeLanes := [], shaToLane := [] } 0 cs).2.1).map
          (fun e => (e.edgeType, e.toSha))
          = cs.tail.map (fun d => (EdgeType.Normal, d.sha))) := by
    cases cs with
    | nil => exact ⟨rfl, rfl⟩
    | cons c rest =>
        cases rest with
        | nil =>
            have hpar : c.parents = [] := by simpa [isChain] using hchain
            rw [layoutLoop_cons, processCommit_first_single c hpar]
            constructor <;> rfl
        | cons d rest' =>
            have hchain' : c.parents = [d.sha] ∧ isChain (d :: rest') = true := by
              simpa [isChain] using hchain
            have hres' : ([(d.sha, 0)] : List (String × Nat)).lookup d.sha = some 0 := by
              simp [List.lookup]
            have hnodup' : ((d :: rest').map (fun x => x.sha)).Nodup := by
              have := List.Nodup.of_cons hnodup
              simpa using this
            have hfresh' : ∀ e ∈ rest',
                ([(d.sha, 0)] : List (String × Nat)).lookup e.sha = none := by
              intro e he
              have hnd : (d.sha :: rest'.map (fun x => x.sha)).Nodup := by simpa using hnodup'
              have hd_notin : d.sha ∉ rest'.map (fun x => x.sha) := (List.nodup_cons.mp hnd).1
              have hne : e.sha ≠ d.sha := by
                intro hcontra
                exact hd_notin (hcontra ▸ List.mem_map_of_mem (fun x => x.sha) he)
              have hfe : (e.sha == d.sha) = false := by simpa using hne
              simp [List.lookup, hfe]
            have hrec := chain_loop rest' d [(d.sha, 0)] 1 hchain'.2 hres' hfresh' hnodup'
            rw [layoutLoop_cons, processCommit_first_chain c d.sha hchain'.1]
            constructor
            · simp only [List.map_cons]
              rw [hrec.1]
              rfl
            · simp only [List.map_append, List.map_cons]
              rw [hrec.2]
              rfl
  have hnodesdef : (layoutCommits cs).nodes =
      (layoutLoop { activeLanes := [], shaToLane := [] } 0 cs).1 := rfl
  have hsplit :
      (layoutCommits cs).edges =
        (((layoutLoop { activeLanes := [], shaToLane := [] } 0 cs).2.1).map
          (resolveEdge (buildRowMap ((layoutCommits cs).nodes))
            ((layoutCommits cs).nodes))).filter (fun e => 0 ≤ e.toRow) := rfl
  have hmapped : ∀ e0 ∈ (layoutLoop { activeLanes := [], shaToLane := [] } 0 cs).2.1,
      e0.edgeType = EdgeType.Normal ∧
      ∃ r, (buildRowMap ((layoutCommits cs).nodes)).lookup e0.toSha = some r := by
    intro e0 he0
    have hpair : (e0.edgeType, e0.toSha) ∈
        ((layoutLoop { activeLanes := [], shaToLane := [] } 0 cs).2.1).map
          (fun e => (e.edgeType, e.toSha)) :=
      List.mem_map_of_mem _ he0
    rw [key.2] at hpair
    obtain ⟨d, hd, hpr⟩ := List.mem_map.mp hpair
    have htype : e0.edgeType = EdgeType.Normal := by
      have := congrArg Prod.fst hpr
      simpa using this.symm
    have hsha : e0.toSha = d.sha := by
      have := congrArg Prod.snd hpr
      simpa using this.symm
    have hdmem : d ∈ cs := List.mem_of_mem_tail hd
    have hin : e0.toSha ∈ ((layoutCommits cs).nodes).map (fun n => n.sha) := by
      rw [hnodesdef, layoutLoop_nodes_map_sha, hsha]
      exact List.mem_map_of_mem (fun c => c.sha) hdmem
    have hissome := buildRowMapGo_lookup_isSome ((layoutCommits cs).nodes) [] 0 e0.toSha hin
    obtain ⟨r, hr⟩ := Option.isSome_iff_exists.mp hissome
    exact ⟨htype, r, hr⟩
  have hkeep : ∀ e ∈ (((layoutLoop { activeLanes := [], shaToLane := [] } 0 cs).2.1).map
      (resolveEdge (buildRowMap ((layoutCommits cs).nodes)) ((layoutCommits cs).nodes))),
      (0 ≤ e.toRow) := by
    intro e he
    obtain ⟨e0, he0, heq⟩ := List.mem_map.mp he
    obtain ⟨_, r, hr⟩ := hmapped e0 he0
    rw [← heq, resolveEdge_toRow_some _ _ _ r hr]
    omega
  have hfilter :
      (layoutCommits cs).edges =
        (((layoutLoop { activeLanes := [], shaToLane := [] } 0 cs).2.1).map
          (resolveEdge (buildRowMap ((layoutCommits cs).nodes))
            ((layoutCommits cs).nodes))) := by
    rw [hsplit]
    apply List.filter_eq_self.mpr
    intro e he
    simpa using hkeep e he
  refine ⟨?_, ?_, ?_, ?_⟩
  · rw [List.range_eq_range']
    exact layoutLoop_nodes_map_row cs _ 0
  · rw [hnodesdef]
    exact key.1
  · rw [hfilter, List.length_map]
    have := congrArg List.length key.2
    simp only [List.length_map] at this
    rw [this, List.length_tail]
  · intro e he
    rw [hfilter] at he
    obtain ⟨e0, he0, heq⟩ := List.mem_map.mp he
    obtain ⟨htype, _, _⟩ := hmapped e0 he0
    rw [← heq, resolveEdge_edgeType]
    exact htype

/-- C2 witness: the three-commit chain of spec scenario A. -/
theorem C2_witness :
    ((layoutCommits exC2).nodes.map (fun n => n.row) = List.range exC2.length) ∧
    ((layoutCommits exC2).nodes.map (fun n => n.lane) = List.replicate exC2.length 0) ∧
    ((layoutCommits exC2).edges.length = exC2.length - 1) :=
  ⟨(C2_theorem exC2 (by decide) (by decide)).1,
   (C2_theorem exC2 (by decide) (by decide)).2.1,
   (C2_theorem exC2 (by decide) (by decide)).2.2.1⟩

theorem findIdx?_isNone_get? (lanes : List (Option String)) :
    ∀ i l, lanes.findIdx? Option.isNone i = some l →
      i ≤ l ∧ lanes.get? (l - i) = some none := by
  induction lanes with
  | nil =>
      intro i l h
      simp [List.findIdx?] at h
  | cons a as ih =>
      intro i l h
      rw [List.findIdx?_cons] at h
      by_cases ha : a.isNone
      · rw [if_pos ha] at h
        have hl : i = l := by simpa using h
        subst hl
        refine ⟨le_refl i, ?_⟩
        simp [Option.isNone_iff_eq_none.mp ha]
      · rw [if_neg ha] at h
        obtain ⟨hle, hget⟩ := ih (i + 1) l h
        refine ⟨by omega, ?_⟩
        have hsub : l - i = (l - (i + 1)) + 1 := by omega
        rw [hsub]
        simpa using hget

theorem findEmptyLane_slot (lanes : List (Option String)) :
    ((findEmptyLane lanes).2).get? (findEmptyLane lanes).1 = some none := by
  unfold findEmptyLane
  rcases h : lanes.findIdx? Option.isNone with _ | l
  · exact List.get?_concat_length lanes none
  · have := (findIdx?_isNone_get? lanes 0 l h).2
    simpa using this

theorem findEmptyLane_occupied (lanes : List (Option String)) (l : Nat) (x : String)
    (h : lanes.get? l = some (some x)) :
    ((findEmptyLane lanes).2).get? l = some (some x) := by
  unfold findEmptyLane
  rcases hf : lanes.findIdx? Option.isNone with _ | i
  · have hlen : l < lanes.length := List.get?_eq_some.mp h |>.1
    rw [List.get?_append hlen]
    exact h
  · exact h

theorem findEmptyLane_occupied_rev (lanes : List (Option String)) (l : Nat) (x : String)
    (h : ((findEmptyLane lanes).2).get? l = some (some x)) :
    lanes.get? l = some (some x) := by
  unfold findEmptyLane at h
  rcases hf : lanes.findIdx? Option.isNone with _ | i
  · rw [hf] at h
    by_cases hlen : l < lanes.length
    · rw [List.get?_append hlen] at h
      exact h
    · rcases Nat.lt_or_ge l (lanes.length + 1) with hl1 | hl1
      · have hl : l = lanes.length := by omega
        subst hl
        rw [List.get?_concat_length] at h
        exact absurd h (by simp)
      · rw [List.get?_eq_none.mpr (by simpa using hl1)] at h
        exact absurd h (by simp)
  · rw [hf] at h
    exact h

theorem LaneInv_mono_done (done done' : List String) (st : LaneState)
    (hsub : ∀ x, x ∈ done → x ∈ done') (hInv : LaneInv done st) : LaneInv done' st := by
  refine ⟨hInv.1, ?_⟩
  intro x l hx hnot
  exact hInv.2 x l hx (fun hmem => hnot (hsub x hmem))

theorem LaneInv_extend (done : List String) (lanes : List (Option String))
    (m : List (String × Nat)) (hInv : LaneInv done { activeLanes := lanes, shaToLane := m }) :
    LaneInv done { activeLanes := lanes ++ [none], shaToLane := m } := by
  constructor
  · intro l x h
    refine hInv.1 l x ?_
    by_cases hlen : l < lanes.length
    · rw [List.get?_append hlen] at h
      exact h
    · rcases Nat.lt_or_ge l (lanes.length + 1) with hl1 | hl1
      · have hl : l = lanes.length := by omega
        subst hl
        rw [List.get?_concat_length] at h
        exact absurd h (by simp)
      · rw [List.get?_eq_none.mpr (by simpa using hl1)] at h
        exact absurd h (by simp)
  · intro x l hx hnot
    have h := hInv.2 x l hx hnot
    have hlen : l < lanes.length := List.get?_eq_some.mp h |>.1
    rw [List.get?_append hlen]
    exact h

theorem LaneInv_set_none (done : List String) (lanes : List (Option String))
    (m : List (String × Nat)) (lane : Nat)
    (hInv : LaneInv done { activeLanes := lanes, shaToLane := m })
    (hslot : ∀ x, lanes.get? lane = some (some x) → x ∈ done) :
    LaneInv done { activeLanes := lanes.set lane none, shaToLane := m } := by
  constructor
  · intro l x h
    refine hInv.1 l x ?_
    by_cases hl : l = lane
    · subst hl
      by_cases hlen : l < lanes.length
      · rw [List.get?_set_eq_of_lt none hlen] at h
        exact absurd h (by simp)
      · rw [List.set_eq_of_length_le (by omega)] at h
        exact h
    · rw [List.get?_set_ne none lanes (fun a => hl a.symm)] at h
      exact h
  · intro x l hx hnot
    have h := hInv.2 x l hx hnot
    have hl : l ≠ lane := by
      intro hcontra
      subst hcontra
      exact hnot (hslot x h)
    rw [List.get?_set_ne none lanes (fun a => hl a.symm)]
    exact h

theorem LaneInv_resolve (done : List String) (st : LaneState) (sha : String)
    (hInv : LaneInv done st) :
    LaneInv done { activeLanes := (resolveLane st sha).2, shaToLane := st.shaToLane } := by
  unfold resolveLane
  rcases h : st.shaToLane.lookup sha with _ | l
  · unfold findEmptyLane
    rcases hf : st.activeLanes.findIdx? Option.isNone with _ | i
    · exact LaneInv_extend done st.activeLanes st.shaToLane hInv
    · exact hInv
  · exact hInv

theorem resolveLane_slot (done : List String) (st : LaneState) (sha : String)
    (hInv : LaneInv done st) (hsha : sha ∉ done) :
    ((resolveLane st sha).2).get? (resolveLane st sha).1 = some (some sha) ∨
    ((resolveLane st sha).2).get? (resolveLane st sha).1 = some none := by
  unfold resolveLane
  rcases h : st.shaToLane.lookup sha with _ | l
  · right
    exact findEmptyLane_slot _
  · left
    exact hInv.2 sha l h hsha

theorem LaneInv_occupy (done : List String) (st : LaneState) (sha : String)
    (hInv : LaneInv done st) (hsha : sha ∉ done) :
    LaneInv (done ++ [sha])
      { activeLanes := (resolveLane st sha).2.set (resolveLane st sha).1 none,
        shaToLane := st.shaToLane } ∧
    ((resolveLane st sha).2.set (resolveLane st sha).1 none).get?
      (resolveLane st sha).1 = some none := by
  have hInvW : LaneInv (done ++ [sha])
      { activeLanes := (resolveLane st sha).2, shaToLane := st.shaToLane } :=
    LaneInv_mono_done done (done ++ [sha]) _
      (fun x hx => List.mem_append_left _ hx) (LaneInv_resolve done st sha hInv)
  have hslot := resolveLane_slot done st sha hInv hsha
  have hlen : (resolveLane st sha).1 < ((resolveLane st sha).2).length := by
    rcases hslot with h | h <;> exact (List.get?_eq_some.mp h).1
  constructor
  · refine LaneInv_set_none (done ++ [sha]) _ _ _ hInvW ?_
    intro x hx
    rcases hslot with h | h
    · rw [h] at hx
      have hxs : sha = x := by simpa using hx
      subst hxs
      simp
    · rw [h] at hx
      exact absurd hx (by simp)
  · exact List.get?_set_eq_of_lt none hlen

theorem LaneInv_write (done : List String) (W : List (Option String))
    (m : List (String × Nat)) (p : String) (l : Nat)
    (hInv : LaneInv done { activeLanes := W, shaToLane := m })
    (hlookup : m.lookup p = none) (hslot : W.get? l = some none) :
    LaneInv done { activeLanes := W.set l (some p), shaToLane := (p, l) :: m } := by
  have hlen : l < W.length := (List.get?_eq_some.mp hslot).1
  constructor
  · intro l' x h
    by_cases hl : l' = l
    · subst hl
      rw [List.get?_set_eq_of_lt (some p) hlen] at h
      have hx : p = x := by simpa using h
      subst hx
      simp [List.lookup]
    · rw [List.get?_set_ne (some p) W (fun a => hl a.symm)] at h
      have hx := hInv.1 l' x h
      have hne : x ≠ p := by
        intro hcontra
        subst hcontra
        rw [hlookup] at hx
        exact absurd hx (by simp)
      have hfe : (x == p) = false := by simpa using hne
      simp only [List.lookup, hfe]
      exact hx
  · intro x l' hx hnot
    simp only [List.lookup] at hx
    by_cases hxp : x = p
    · subst hxp
      simp only [beq_self_eq_true] at hx
      have hl : l = l' := by simpa using hx
      subst hl
      rw [List.get?_set_eq_of_lt (some x) hlen]
    · have hfe : (x == p) = false := by simpa using hxp
      simp only [hfe] at hx
      have h := hInv.2 x l' hx hnot
      have hl : l' ≠ l := by
        intro hcontra
        subst hcontra
        rw [hslot] at h
        exact absurd h (by simp)
      rw [List.get?_set_ne (some p) W (fun a => hl a.symm)]
      exact h

theorem LaneInv_findEmpty (done : List String) (st : LaneState)
    (hInv : LaneInv done st) :
    LaneInv done
      { activeLanes := (findEmptyLane st.activeLanes).2, shaToLane := st.shaToLane } := by
  unfold findEmptyLane
  rcases hf : st.activeLanes.findIdx? Option.isNone with _ | i
  · exact LaneInv_extend done st.activeLanes st.shaToLane hInv
  · exact hInv

theorem processParent_inv (done : List String) (st : LaneState) (c : String)
    (lane row : Nat) (ci : Int) (pIdx : Nat) (p : String)
    (hpIdx : 1 ≤ pIdx) (hInv : LaneInv done st) :
    LaneInv done (processParent st c lane row ci pIdx p).1 := by
  unfold processParent
  rcases h : st.shaToLane.lookup p with _ | l
  · rw [if_neg (show ¬ pIdx = 0 by omega)]
    exact LaneInv_write done _ _ p _ (LaneInv_findEmpty done st hInv) h
      (findEmptyLane_slot _)
  · exact hInv

theorem processParents_inv_tail (ps : List String) :
    ∀ (st : LaneState) (c : String) (lane row : Nat) (ci : Int) (pIdx : Nat)
      (done : List String), 1 ≤ pIdx → LaneInv done st →
      LaneInv done (processParents st c lane row ci pIdx ps).1 := by
  induction ps with
  | nil =>
      intro st c lane row ci pIdx done hpIdx hInv
      exact hInv
  | cons p ps' ih =>
      intro st c lane row ci pIdx done hpIdx hInv
      exact ih _ c lane row ci (pIdx + 1) done (by omega)
        (processParent_inv done st c lane row ci pIdx p hpIdx hInv)

theorem LaneInv_step (done : List String) (st : LaneState) (row : Nat)
    (c : CommitNode) (hInv : LaneInv done st) (hsha : c.sha ∉ done) :
    LaneInv (done ++ [c.sha]) (processCommit st row c).1 := by
  obtain ⟨hInv1, hslot1⟩ := LaneInv_occupy done st c.sha hInv hsha
  simp only [processCommit]
  by_cases hpar : c.parents = []
  · rw [if_pos hpar]
    rw [hpar]
    show LaneInv (done ++ [c.sha])
      { activeLanes :=
          ((resolveLane st c.sha).2.set (resolveLane st c.sha).1 none).set
            (resolveLane st c.sha).1 none,
        shaToLane := st.shaToLane }
    refine LaneInv_set_none _ _ _ _ hInv1 ?_
    intro x hx
    rw [hslot1] at hx
    exact absurd hx (by simp)
  · rw [if_neg hpar]
    rcases hps : c.parents with _ | ⟨p0, ps⟩
    · exact absurd hps hpar
    · show LaneInv (done ++ [c.sha])
        (processParents
          { activeLanes := (resolveLane st c.sha).2.set (resolveLane st c.sha).1 none,
            shaToLane := st.shaToLane }
          c.sha (resolveLane st c.sha).1 row
          (colorIndexOf c.refs (resolveLane st c.sha).1) 0 (p0 :: ps)).1
      have hInv2 : LaneInv (done ++ [c.sha])
          (processParent
            { activeLanes := (resolveLane st c.sha).2.set (resolveLane st c.sha).1 none,
              shaToLane := st.shaToLane }
            c.sha (resolveLane st c.sha).1 row
            (colorIndexOf c.refs (resolveLane st c.sha).1) 0 p0).1 := by
        unfold processParent
        rcases hlk : (st.shaToLane.lookup p0 :) with _ | l
        · rw [if_pos rfl]
          exact LaneInv_write _ _ _ p0 _ hInv1 hlk hslot1
        · exact hInv1
      exact processParents_inv_tail ps _ c.sha _ row _ 1 _ (by omega) hInv2

theorem layoutLoop_state_append (xs : List CommitNode) :
    ∀ (ys : List CommitNode) (st : LaneState) (row : Nat),
      (layoutLoop st row (xs ++ ys)).2.2 =
        (layoutLoop ((layoutLoop st row xs).2.2) (row + xs.length) ys).2.2 := by
  induction xs with
  | nil =>
      intro ys st row
      simp [layoutLoop]
  | cons c rest ih =>
      intro ys st row
      show (layoutLoop st row (c :: (rest ++ ys))).2.2 = _
      rw [layoutLoop_cons, layoutLoop_cons]
      show (layoutLoop _ (row + 1) (rest ++ ys)).2.2 = _
      rw [ih]
      have harow : row + 1 + rest.length = row + (rest.length + 1) := by omega
      rw [harow]
      rfl

theorem stateAt_succ (cs : List CommitNode) (i : Nat) (hi : i < cs.length) :
    stateAt cs (i + 1) = (processCommit (stateAt cs i) i (cs.get ⟨i, hi⟩)).1 := by
  unfold stateAt
  rw [List.take_succ, List.getElem?_eq_getElem hi]
  simp only [Option.toList_some]
  rw [layoutLoop_state_append]
  rw [List.length_take_of_le (le_of_lt hi)]
  simp [layoutLoop]

theorem processedShas_succ (cs : List CommitNode) (i : Nat) (hi : i < cs.length) :
    processedShas cs (i + 1) = processedShas cs i ++ [(cs.get ⟨i, hi⟩).sha] := by
  unfold processedShas
  rw [List.take_succ, List.getElem?_eq_getElem hi]
  simp only [Option.toList_some, List.map_append, List.map_cons, List.map_nil]
  rfl

theorem sha_not_in_processed (cs : List CommitNode)
    (hnodup : (cs.map (fun c => c.sha)).Nodup) (i : Nat) (hi : i < cs.length) :
    (cs.get ⟨i, hi⟩).sha ∉ processedShas cs i := by
  intro hmem
  have hsplit : cs.map (fun c => c.sha) =
      (cs.take i).map (fun c => c.sha) ++ (cs.drop i).map (fun c => c.sha) := by
    rw [← List.map_append, List.take_append_drop]
  rw [hsplit] at hnodup
  have hdisj := (List.nodup_append.mp hnodup).2.2
  have hmem2 : (cs.get ⟨i, hi⟩).sha ∈ (cs.drop i).map (fun c => c.sha) := by
    have hdrop : cs.drop i = cs.get ⟨i, hi⟩ :: cs.drop (i + 1) :=
      List.drop_eq_getElem_cons hi
    rw [hdrop]
    exact List.mem_cons_self _ _ |> fun h => List.mem_map_of_mem _ h
  exact hdisj hmem hmem2

theorem stateAt_inv (cs : List CommitNode)
    (hnodup : (cs.map (fun c => c.sha)).Nodup) :
    ∀ i, i ≤ cs.length → LaneInv (processedShas cs i) (stateAt cs i) := by
  intro i
  induction i with
  | zero =>
      intro _
      constructor
      · intro l x h
        simp [stateAt, layoutLoop] at h
      · intro x l hx _
        simp [stateAt, layoutLoop, List.lookup] at hx
  | succ i ih =>
      intro hsucc
      have hi : i < cs.length := by omega
      rw [stateAt_succ cs i hi, processedShas_succ cs i hi]
      exact LaneInv_step _ _ _ _ (ih (by omega)) (sha_not_in_processed cs hnodup i hi)

theorem validTopo_spec (cs : List CommitNode) (h : validTopo cs = true)
    (i : Nat) (hi : i < cs.length) (p : String)
    (hp : p ∈ (cs.get ⟨i, hi⟩).parents) (j : Nat) (hj : j < cs.length)
    (hij : j ≤ i) : (cs.get ⟨j, hj⟩).sha ≠ p := by
  unfold validTopo at h
  rw [List.all_eq_true] at h
  have hmem : (i, cs.get ⟨i, hi⟩) ∈ cs.enum := by
    have hlen : i < cs.enum.length := by simpa using hi
    have hgl : cs.enum.get ⟨i, hlen⟩ = (i, cs.get ⟨i, hi⟩) :=
      List.getElem_enum cs i hlen
    have hmem0 : cs.enum.get ⟨i, hlen⟩ ∈ cs.enum := List.get_mem _ _ _
    rw [hgl] at hmem0
    exact hmem0
  have h1 := h _ hmem
  simp only at h1
  rw [List.all_eq_true] at h1
  have h2 := h1 p hp
  simp only at h2
  rw [List.all_eq_true] at h2
  have hjlt : j < (cs.take (i + 1)).length := by
    rw [List.length_take_of_le (by omega)]
    omega
  have hmemj : cs.get ⟨j, hj⟩ ∈ cs.take (i + 1) := by
    have hgt : (cs.take (i + 1)).get ⟨j, hjlt⟩ = cs.get ⟨j, hj⟩ :=
      List.getElem_take cs
    have hmemj0 : (cs.take (i + 1)).get ⟨j, hjlt⟩ ∈ cs.take (i + 1) :=
      List.get_mem _ _ _
    rw [hgt] at hmemj0
    exact hmemj0
  have h3 := h2 _ hmemj
  simpa using h3

theorem processParent_reserved (st : LaneState) (c : String) (lane row : Nat)
    (ci : Int) (pIdx : Nat) (p : String) (L : Nat)
    (h : st.shaToLane.lookup p = some L) :
    processParent st c lane row ci pIdx p =
      (st, { fromSha := c, toSha := p, fromLane := lane, toLane := L,
             fromRow := row, toRow := -1,
             edgeType := if 0 < pIdx then EdgeType.Merge else EdgeType.Normal,
             colorIndex := ci }) := by
  unfold processParent
  rw [h]

theorem processParent_fresh_first (st : LaneState) (c : String) (lane row : Nat)
    (ci : Int) (p : String) (h : st.shaToLane.lookup p = none) :
    processParent st c lane row ci 0 p =
      ({ activeLanes := st.activeLanes.set lane (some p),
         shaToLane := (p, lane) :: st.shaToLane },
       { fromSha := c, toSha := p, fromLane := lane, toLane := lane,
         fromRow := row, toRow := -1, edgeType := EdgeType.Normal,
         colorIndex := ci }) := by
  unfold processParent
  rw [h]
  simp

theorem processParent_fresh_later (st : LaneState) (c : String) (lane row : Nat)
    (ci : Int) (pIdx : Nat) (p : String) (hpIdx : 1 ≤ pIdx)
    (h : st.shaToLane.lookup p = none) :
    processParent st c lane row ci pIdx p =
      ({ activeLanes :=
           (findEmptyLane st.activeLanes).2.set (findEmptyLane st.activeLanes).1 (some p),
         shaToLane := (p, (findEmptyLane st.activeLanes).1) :: st.shaToLane },
       { fromSha := c, toSha := p, fromLane := lane,
         toLane := (findEmptyLane st.activeLanes).1,
         fromRow := row, toRow := -1, edgeType := EdgeType.Merge,
         colorIndex := ci }) := by
  unfold processParent
  rw [h]
  rw [if_neg (show ¬ pIdx = 0 by omega)]
  rw [if_pos (show 0 < pIdx by omega)]

/-- C1 (amended) — for a reverse-topologically ordered window with distinct
identities, a merge commit with two distinct parents emits exactly two
edges: the first-parent edge is Normal (Direct) and the second is Merge,
their target lanes are distinct, and the first-parent edge targets the
first parent's previously reserved lane when one exists, otherwise the
commit's own lane (the original claim that it always keeps the commit's
own lane fails; see the counterexample). -/
theorem C1_amended (cs : List CommitNode)
    (hvalid : validTopo cs = true)
    (hnodup : (cs.map (fun c => c.sha)).Nodup)
    (i : Nat) (hi : i < cs.length) (p0 p1 : String)
    (hp : (cs.get ⟨i, hi⟩).parents = [p0, p1]) (hne : p0 ≠ p1) :
    ∃ e0 e1,
      (processCommit (stateAt cs i) i (cs.get ⟨i, hi⟩)).2.2 = [e0, e1] ∧
      e0.edgeType = EdgeType.Normal ∧ e1.edgeType = EdgeType.Merge ∧
      e0.toSha = p0 ∧ e1.toSha = p1 ∧ e0.toLane ≠ e1.toLane ∧
      e0.toLane = ((stateAt cs i).shaToLane.lookup p0).getD
        ((processCommit (stateAt cs i) i (cs.get ⟨i, hi⟩)).2.1.lane) := by
  have hInvP := stateAt_inv cs hnodup i (le_of_lt hi)
  have hcsha := sha_not_in_processed cs hnodup i hi
  have hparents0 : p0 ∈ (cs.get ⟨i, hi⟩).parents := by
    rw [hp]
    exact List.mem_cons_self _ _
  have hparents1 : p1 ∈ (cs.get ⟨i, hi⟩).parents := by
    rw [hp]
    simp
  have hfresh : ∀ p, p ∈ (cs.get ⟨i, hi⟩).parents →
      p ∉ processedShas cs i ++ [(cs.get ⟨i, hi⟩).sha] := by
    intro p hpmem hmem
    rcases List.mem_append.mp hmem with hmem | hmem
    · obtain ⟨d, hd, hdsha⟩ := List.mem_map.mp hmem
      obtain ⟨⟨j, hjlen⟩, hget⟩ := List.mem_iff_get.mp hd
      have hjlt : j < i := by
        rwa [List.length_take_of_le (le_of_lt hi)] at hjlen
      have hj : j < cs.length := by omega
      have hdj : cs.get ⟨j, hj⟩ = d := by
        rw [← hget]
        exact (List.getElem_take cs).symm
      exact validTopo_spec cs hvalid i hi p hpmem j hj (by omega)
        (by rw [hdj]; exact hdsha)
    · have hpc : p = (cs.get ⟨i, hi⟩).sha := by simpa using hmem
      exact validTopo_spec cs hvalid i hi p hpmem i hi (le_refl i) hpc.symm
  obtain ⟨hInv1, hslot1⟩ :=
    LaneInv_occupy (processedShas cs i) (stateAt cs i) (cs.get ⟨i, hi⟩).sha hInvP hcsha
  rcases hlk0 : (stateAt cs i).shaToLane.lookup p0 with _ | L0
  · have hppe0 := processParent_fresh_first { activeLanes := ((resolveLane (stateAt cs i) (cs.get ⟨i, hi⟩).sha).2.set (resolveLane (stateAt cs i) (cs.get ⟨i, hi⟩).sha).1 none), shaToLane := (stateAt cs i).shaToLane } (cs.get ⟨i, hi⟩).sha (resolveLane (stateAt cs i) (cs.get ⟨i, hi⟩).sha).1 i (colorIndexOf (cs.get ⟨i, hi⟩).refs (resolveLane (stateAt cs i) (cs.get ⟨i, hi⟩).sha).1) p0 hlk0
    have hlk1' : ((p0, (resolveLane (stateAt cs i) (cs.get ⟨i, hi⟩).sha).1) :: (stateAt cs i).shaToLane).lookup p1
        = (stateAt cs i).shaToLane.lookup p1 := by
      have hfe : (p1 == p0) = false := by simpa using hne.symm
      simp [List.lookup, hfe]
    have hlanelt : (resolveLane (stateAt cs i) (cs.get ⟨i, hi⟩).sha).1 < ((resolveLane (stateAt cs i) (cs.get ⟨i, hi⟩).sha).2.set (resolveLane (stateAt cs i) (cs.get ⟨i, hi⟩).sha).1 none).length := (List.get?_eq_some.mp hslot1).1
    have hsetslot : (((resolveLane (stateAt cs i) (cs.get ⟨i, hi⟩).sha).2.set (resolveLane (stateAt cs i) (cs.get ⟨i, hi⟩).sha).1 none).set (resolveLane (stateAt cs i) (cs.get ⟨i, hi⟩).sha).1 (some p0)).get? (resolveLane (stateAt cs i) (cs.get ⟨i, hi⟩).sha).1 = some (some p0) :=
      List.get?_set_eq_of_lt (some p0) hlanelt
    rcases hlk1 : (stateAt cs i).shaToLane.lookup p1 with _ | L1
    · have hppe1 := processParent_fresh_later (processParent { activeLanes := ((resolveLane (stateAt cs i) (cs.get ⟨i, hi⟩).sha).2.set (resolveLane (stateAt cs i) (cs.get ⟨i, hi⟩).sha).1 none), shaToLane := (stateAt cs i).shaToLane } (cs.get ⟨i, hi⟩).sha (resolveLane (stateAt cs i) (cs.get ⟨i, hi⟩).sha).1 i (colorIndexOf (cs.get ⟨i, hi⟩).refs (resolveLane (stateAt cs i) (cs.get ⟨i, hi⟩).sha).1) 0 p0).1 (cs.get ⟨i, hi⟩).sha (resolveLane (stateAt cs i) (cs.get ⟨i, hi⟩).sha).1 i (colorIndexOf (cs.get ⟨i, hi⟩).refs (resolveLane (stateAt cs i) (cs.get ⟨i, hi⟩).sha).1) 1 p1
        (le_refl 1) (by rw [hppe0]; exact hlk1'.trans hlk1)
      refine ⟨(processParent { activeLanes := ((resolveLane (stateAt cs i) (cs.get ⟨i, hi⟩).sha).2.set (resolveLane (stateAt cs i) (cs.get ⟨i, hi⟩).sha).1 none), shaToLane := (stateAt cs i).shaToLane } (cs.get ⟨i, hi⟩).sha (resolveLane (stateAt cs i) (cs.get ⟨i, hi⟩).sha).1 i (colorIndexOf (cs.get ⟨i, hi⟩).refs (resolveLane (stateAt cs i) (cs.get ⟨i, hi⟩).sha).1) 0 p0).2, (processParent (processParent { activeLanes := ((resolveLane (stateAt cs i) (cs.get ⟨i, hi⟩).sha).2.set (resolveLane (stateAt cs i) (cs.get ⟨i, hi⟩).sha).1 none), shaToLane := (stateAt cs i).shaToLane } (cs.get ⟨i, hi⟩).sha (resolveLane (stateAt cs i) (cs.get ⟨i, hi⟩).sha).1 i (colorIndexOf (cs.get ⟨i, hi⟩).refs (resolveLane (stateAt cs i) (cs.get ⟨i, hi⟩).sha).1) 0 p0).1 (cs.get ⟨i, hi⟩).sha (resolveLane (stateAt cs i) (cs.get ⟨i, hi⟩).sha).1 i (colorIndexOf (cs.get ⟨i, hi⟩).refs (resolveLane (stateAt cs i) (cs.get ⟨i, hi⟩).sha).1) 1 p1).2, ?_, ?_, ?_, ?_, ?_, ?_, ?_⟩
      · rw [processCommit_edges, hp]
        rfl
      · rw [hppe0]
      · rw [hppe1]
      · rw [hppe0]
      · rw [hppe1]
      · rw [hppe1, hppe0]
        show (resolveLane (stateAt cs i) (cs.get ⟨i, hi⟩).sha).1 ≠ (findEmptyLane (((resolveLane (stateAt cs i) (cs.get ⟨i, hi⟩).sha).2.set (resolveLane (stateAt cs i) (cs.get ⟨i, hi⟩).sha).1 none).set (resolveLane (stateAt cs i) (cs.get ⟨i, hi⟩).sha).1 (some p0))).1
        intro hcontra
        have h1 := findEmptyLane_slot (((resolveLane (stateAt cs i) (cs.get ⟨i, hi⟩).sha).2.set (resolveLane (stateAt cs i) (cs.get ⟨i, hi⟩).sha).1 none).set (resolveLane (stateAt cs i) (cs.get ⟨i, hi⟩).sha).1 (some p0))
        have h2 := findEmptyLane_occupied (((resolveLane (stateAt cs i) (cs.get ⟨i, hi⟩).sha).2.set (resolveLane (stateAt cs i) (cs.get ⟨i, hi⟩).sha).1 none).set (resolveLane (stateAt cs i) (cs.get ⟨i, hi⟩).sha).1 (some p0))
          (resolveLane (stateAt cs i) (cs.get ⟨i, hi⟩).sha).1 p0 hsetslot
        have h3 := congrArg
          (fun n => ((findEmptyLane (((resolveLane (stateAt cs i) (cs.get ⟨i, hi⟩).sha).2.set (resolveLane (stateAt cs i) (cs.get ⟨i, hi⟩).sha).1 none).set (resolveLane (stateAt cs i) (cs.get ⟨i, hi⟩).sha).1 (some p0))).2).get? n) hcontra
        simp only at h3
        rw [h2, h1] at h3
        exact absurd h3 (by simp)
      · rw [hppe0, processCommit_node]
        rfl
    · have hL1slot : ((resolveLane (stateAt cs i) (cs.get ⟨i, hi⟩).sha).2.set (resolveLane (stateAt cs i) (cs.get ⟨i, hi⟩).sha).1 none).get? L1 = some (some p1) :=
        hInv1.2 p1 L1 hlk1 (hfresh p1 hparents1)
      have hppe1 := processParent_reserved (processParent { activeLanes := ((resolveLane (stateAt cs i) (cs.get ⟨i, hi⟩).sha).2.set (resolveLane (stateAt cs i) (cs.get ⟨i, hi⟩).sha).1 none), shaToLane := (stateAt cs i).shaToLane } (cs.get ⟨i, hi⟩).sha (resolveLane (stateAt cs i) (cs.get ⟨i, hi⟩).sha).1 i (colorIndexOf (cs.get ⟨i, hi⟩).refs (resolveLane (stateAt cs i) (cs.get ⟨i, hi⟩).sha).1) 0 p0).1 (cs.get ⟨i, hi⟩).sha (resolveLane (stateAt cs i) (cs.get ⟨i, hi⟩).sha).1 i (colorIndexOf (cs.get ⟨i, hi⟩).refs (resolveLane (stateAt cs i) (cs.get ⟨i, hi⟩).sha).1) 1 p1 L1
        (by rw [hppe0]; exact hlk1'.trans hlk1)
      refine ⟨(processParent { activeLanes := ((resolveLane (stateAt cs i) (cs.get ⟨i, hi⟩).sha).2.set (resolveLane (stateAt cs i) (cs.get ⟨i, hi⟩).sha).1 none), shaToLane := (stateAt cs i).shaToLane } (cs.get ⟨i, hi⟩).sha (resolveLane (stateAt cs i) (cs.get ⟨i, hi⟩).sha).1 i (colorIndexOf (cs.get ⟨i, hi⟩).refs (resolveLane (stateAt cs i) (cs.get ⟨i, hi⟩).sha).1) 0 p0).2, (processParent (processParent { activeLanes := ((resolveLane (stateAt cs i) (cs.get ⟨i, hi⟩).sha).2.set (resolveLane (stateAt cs i) (cs.get ⟨i, hi⟩).sha).1 none), shaToLane := (stateAt cs i).shaToLane } (cs.get ⟨i, hi⟩).sha (resolveLane (stateAt cs i) (cs.get ⟨i, hi⟩).sha).1 i (colorIndexOf (cs.get ⟨i, hi⟩).refs (resolveLane (stateAt cs i) (cs.get ⟨i, hi⟩).sha).1) 0 p0).1 (cs.get ⟨i, hi⟩).sha (resolveLane (stateAt cs i) (cs.get ⟨i, hi⟩).sha).1 i (colorIndexOf (cs.get ⟨i, hi⟩).refs (resolveLane (stateAt cs i) (cs.get ⟨i, hi⟩).sha).1) 1 p1).2, ?_, ?_, ?_, ?_, ?_, ?_, ?_⟩
      · rw [processCommit_edges, hp]
        rfl
      · rw [hppe0]
      · rw [hppe1]
        rfl
      · rw [hppe0]
      · rw [hppe1]
      · rw [hppe1, hppe0]
        show (resolveLane (stateAt cs i) (cs.get ⟨i, hi⟩).sha).1 ≠ L1
        intro hcontra
        rw [← hcontra] at hL1slot
        rw [hslot1] at hL1slot
        exact absurd hL1slot (by simp)
      · rw [hppe0, processCommit_node]
        rfl
  · have hL0slot : ((resolveLane (stateAt cs i) (cs.get ⟨i, hi⟩).sha).2.set (resolveLane (stateAt cs i) (cs.get ⟨i, hi⟩).sha).1 none).get? L0 = some (some p0) :=
      hInv1.2 p0 L0 hlk0 (hfresh p0 hparents0)
    have hppe0 := processParent_reserved { activeLanes := ((resolveLane (stateAt cs i) (cs.get ⟨i, hi⟩).sha).2.set (resolveLane (stateAt cs i) (cs.get ⟨i, hi⟩).sha).1 none), shaToLane := (stateAt cs i).shaToLane } (cs.get ⟨i, hi⟩).sha (resolveLane (stateAt cs i) (cs.get ⟨i, hi⟩).sha).1 i (colorIndexOf (cs.get ⟨i, hi⟩).refs (resolveLane (stateAt cs i) (cs.get ⟨i, hi⟩).sha).1) 0 p0 L0 hlk0
    rcases hlk1 : (stateAt cs i).shaToLane.lookup p1 with _ | L1
    · have hppe1 := processParent_fresh_later (processParent { activeLanes := ((resolveLane (stateAt cs i) (cs.get ⟨i, hi⟩).sha).2.set (resolveLane (stateAt cs i) (cs.get ⟨i, hi⟩).sha).1 none), shaToLane := (stateAt cs i).shaToLane } (cs.get ⟨i, hi⟩).sha (resolveLane (stateAt cs i) (cs.get ⟨i, hi⟩).sha).1 i (colorIndexOf (cs.get ⟨i, hi⟩).refs (resolveLane (stateAt cs i) (cs.get ⟨i, hi⟩).sha).1) 0 p0).1 (cs.get ⟨i, hi⟩).sha (resolveLane (stateAt cs i) (cs.get ⟨i, hi⟩).sha).1 i (colorIndexOf (cs.get ⟨i, hi⟩).refs (resolveLane (stateAt cs i) (cs.get ⟨i, hi⟩).sha).1) 1 p1
        (le_refl 1) (by rw [hppe0]; exact hlk1)
      refine ⟨(processParent { activeLanes := ((resolveLane (stateAt cs i) (cs.get ⟨i, hi⟩).sha).2.set (resolveLane (stateAt cs i) (cs.get ⟨i, hi⟩).sha).1 none), shaToLane := (stateAt cs i).shaToLane } (cs.get ⟨i, hi⟩).sha (resolveLane (stateAt cs i) (cs.get ⟨i, hi⟩).sha).1 i (colorIndexOf (cs.get ⟨i, hi⟩).refs (resolveLane (stateAt cs i) (cs.get ⟨i, hi⟩).sha).1) 0 p0).2, (processParent (processParent { activeLanes := ((resolveLane (stateAt cs i) (cs.get ⟨i, hi⟩).sha).2.set (resolveLane (stateAt cs i) (cs.get ⟨i, hi⟩).sha).1 none), shaToLane := (stateAt cs i).shaToLane } (cs.get ⟨i, hi⟩).sha (resolveLane (stateAt cs i) (cs.get ⟨i, hi⟩).sha).1 i (colorIndexOf (cs.get ⟨i, hi⟩).refs (resolveLane (stateAt cs i) (cs.get ⟨i, hi⟩).sha).1) 0 p0).1 (cs.get ⟨i, hi⟩).sha (resolveLane (stateAt cs i) (cs.get ⟨i, hi⟩).sha).1 i (colorIndexOf (cs.get ⟨i, hi⟩).refs (resolveLane (stateAt cs i) (cs.get ⟨i, hi⟩).sha).1) 1 p1).2, ?_, ?_, ?_, ?_, ?_, ?_, ?_⟩
      · rw [processCommit_edges, hp]
        rfl
      · rw [hppe0]
        rfl
      · rw [hppe1]
      · rw [hppe0]
      · rw [hppe1]
      · rw [hppe1, hppe0]
        show L0 ≠ (findEmptyLane ((resolveLane (stateAt cs i) (cs.get ⟨i, hi⟩).sha).2.set (resolveLane (stateAt cs i) (cs.get ⟨i, hi⟩).sha).1 none)).1
        intro hcontra
        have h1 := findEmptyLane_slot ((resolveLane (stateAt cs i) (cs.get ⟨i, hi⟩).sha).2.set (resolveLane (stateAt cs i) (cs.get ⟨i, hi⟩).sha).1 none)
        have h2 := findEmptyLane_occupied ((resolveLane (stateAt cs i) (cs.get ⟨i, hi⟩).sha).2.set (resolveLane (stateAt cs i) (cs.get ⟨i, hi⟩).sha).1 none) L0 p0 hL0slot
        have h3 := congrArg (fun n => ((findEmptyLane ((resolveLane (stateAt cs i) (cs.get ⟨i, hi⟩).sha).2.set (resolveLane (stateAt cs i) (cs.get ⟨i, hi⟩).sha).1 none)).2).get? n) hcontra
        simp only at h3
        rw [h2, h1] at h3
        exact absurd h3 (by simp)
      · rw [hppe0]
        rfl
    · have hL1slot : ((resolveLane (stateAt cs i) (cs.get ⟨i, hi⟩).sha).2.set (resolveLane (stateAt cs i) (cs.get ⟨i, hi⟩).sha).1 none).get? L1 = some (some p1) :=
        hInv1.2 p1 L1 hlk1 (hfresh p1 hparents1)
      have hppe1 := processParent_reserved (processParent { activeLanes := ((resolveLane (stateAt cs i) (cs.get ⟨i, hi⟩).sha).2.set (resolveLane (stateAt cs i) (cs.get ⟨i, hi⟩).sha).1 none), shaToLane := (stateAt cs i).shaToLane } (cs.get ⟨i, hi⟩).sha (resolveLane (stateAt cs i) (cs.get ⟨i, hi⟩).sha).1 i (colorIndexOf (cs.get ⟨i, hi⟩).refs (resolveLane (stateAt cs i) (cs.get ⟨i, hi⟩).sha).1) 0 p0).1 (cs.get ⟨i, hi⟩).sha (resolveLane (stateAt cs i) (cs.get ⟨i, hi⟩).sha).1 i (colorIndexOf (cs.get ⟨i, hi⟩).refs (resolveLane (stateAt cs i) (cs.get ⟨i, hi⟩).sha).1) 1 p1 L1
        (by rw [hppe0]; exact hlk1)
      refine ⟨(processParent { activeLanes := ((resolveLane (stateAt cs i) (cs.get ⟨i, hi⟩).sha).2.set (resolveLane (stateAt cs i) (cs.get ⟨i, hi⟩).sha).1 none), shaToLane := (stateAt cs i).shaToLane } (cs.get ⟨i, hi⟩).sha (resolveLane (stateAt cs i) (cs.get ⟨i, hi⟩).sha).1 i (colorIndexOf (cs.get ⟨i, hi⟩).refs (resolveLane (stateAt cs i) (cs.get ⟨i, hi⟩).sha).1) 0 p0).2, (processParent (processParent { activeLanes := ((resolveLane (stateAt cs i) (cs.get ⟨i, hi⟩).sha).2.set (resolveLane (stateAt cs i) (cs.get ⟨i, hi⟩).sha).1 none), shaToLane := (stateAt cs i).shaToLane } (cs.get ⟨i, hi⟩).sha (resolveLane (stateAt cs i) (cs.get ⟨i, hi⟩).sha).1 i (colorIndexOf (cs.get ⟨i, hi⟩).refs (resolveLane (stateAt cs i) (cs.get ⟨i, hi⟩).sha).1) 0 p0).1 (cs.get ⟨i, hi⟩).sha (resolveLane (stateAt cs i) (cs.get ⟨i, hi⟩).sha).1 i (colorIndexOf (cs.get ⟨i, hi⟩).refs (resolveLane (stateAt cs i) (cs.get ⟨i, hi⟩).sha).1) 1 p1).2, ?_, ?_, ?_, ?_, ?_, ?_, ?_⟩
      · rw [processCommit_edges, hp]
        rfl
      · rw [hppe0]
        rfl
      · rw [hppe1]
        rfl
      · rw [hppe0]
      · rw [hppe1]
      · rw [hppe1, hppe0]
        show L0 ≠ L1
        intro hcontra
        rw [hcontra, hL1slot] at hL0slot
        have hps : p1 = p0 := by simpa using hL0slot
        exact hne hps.symm
      · rw [hppe0]
        rfl

/-- C1 — counterexample: in window `exC1` the commit `b` has already
reserved lane 0 for `p` when the merge commit `a` (parents `p`, `q`,
occupying lane 1) is processed, so the first-parent edge of `a` targets
lane 0, not the commit's own lane 1: the claim that the edge to the first
parent keeps the commit's own lane fails. -/
theorem C1_counterexample :
    ((layoutCommits exC1).nodes.getD 1 default).sha = "a" ∧
    ((layoutCommits exC1).nodes.getD 1 default).lane = 1 ∧
    (exC1.getD 1 default).parents = ["p", "q"] ∧
    ((layoutCommits exC1).edges.getD 1 default).fromSha = "a" ∧
    ((layoutCommits exC1).edges.getD 1 default).toSha = "p" ∧
    ((layoutCommits exC1).edges.getD 1 default).edgeType = EdgeType.Normal ∧
    ((layoutCommits exC1).edges.getD 1 default).toLane = 0 := by decide

/-- C1 witness: a merge at the head of a valid window; its first-parent
edge keeps the commit's own lane because no reservation exists yet. -/
theorem C1_witness :
    ∃ e0 e1,
      (processCommit (stateAt exC1w 0) 0 (exC1w.get ⟨0, by decide⟩)).2.2 = [e0, e1] ∧
      e0.edgeType = EdgeType.Normal ∧ e1.edgeType = EdgeType.Merge ∧
      e0.toSha = "p" ∧ e1.toSha = "q" ∧ e0.toLane ≠ e1.toLane ∧
      e0.toLane = ((stateAt exC1w 0).shaToLane.lookup "p").getD
        ((processCommit (stateAt exC1w 0) 0 (exC1w.get ⟨0, by decide⟩)).2.1.lane) :=
  C1_amended exC1w (by decide) (by decide) 0 (by decide) "p" "q" (by decide) (by decide)

/-- C3 witness at a concrete retained edge. -/
theorem C3_witness :
    ∃ n ∈ (layoutCommits exC2).nodes,
      n.sha = ((layoutCommits exC2).edges.getD 0 default).toSha ∧
      (n.row : Int) = ((layoutCommits exC2).edges.getD 0 default).toRow :=
  (C3_theorem exC2).1 _ (by decide)
